import Mathlib

/-!
Verification of the serde-test2 token machinery: a shallow embedding of the
scripted conformance tester in src/ser.rs, src/de.rs, src/error.rs and
src/assert.rs, together with theorems settling the frozen claims about it.

The Token and EndToken value types live in src/token.rs, which is not part of
the sources available here; their constructors and payloads are reconstructed
exactly from their uses in src/ser.rs and src/de.rs and from the data model of
the specification (one variant per structural event, composite openers carrying
an optional or required length, closers one per opener kind, four closed-form
variant tokens plus a generic variant-group opener, and a field-skip marker).
Float payloads are modelled by their bit patterns (no claim touches floats);
integer payloads are modelled as Nat/Int since no claim depends on width
wrap-around; byte payloads are lists of UInt8.
-/

namespace SerdeTest

/-- Token: one scripted structural event.  Reconstructed from src/token.rs via
its uses in src/ser.rs and src/de.rs (see module comment). -/
inductive Token where
  | bool (v : Bool)
  | i8 (v : Int)
  | i16 (v : Int)
  | i32 (v : Int)
  | i64 (v : Int)
  | i128 (v : Int)
  | u8 (v : Nat)
  | u16 (v : Nat)
  | u32 (v : Nat)
  | u64 (v : Nat)
  | u128 (v : Nat)
  | f32 (bits : UInt32)
  | f64 (bits : UInt64)
  | char (v : Char)
  | str (v : String)
  | borrowedStr (v : String)
  | string (v : String)
  | bytes (v : List UInt8)
  | borrowedBytes (v : List UInt8)
  | byteBuf (v : List UInt8)
  | none
  | some
  | unit
  | unitStruct (name : String)
  | newtypeStruct (name : String)
  | seq (len : Option Nat)
  | seqEnd
  | tuple (len : Nat)
  | tupleEnd
  | tupleStruct (name : String) (len : Nat)
  | tupleStructEnd
  | map (len : Option Nat)
  | mapEnd
  | struct (name : String) (len : Nat)
  | structEnd
  | enum (name : String)
  | unitVariant (name : String) (variant : String)
  | newtypeVariant (name : String) (variant : String)
  | tupleVariant (name : String) (variant : String) (len : Nat)
  | tupleVariantEnd
  | structVariant (name : String) (variant : String) (len : Nat)
  | structVariantEnd
  | skipStructField (name : String)
deriving DecidableEq

/-- EndToken: which closer token a scoped sub-verifier or sub-driver owes
(src/token.rs, used throughout src/ser.rs and src/de.rs). -/
inductive EndToken where
  | seq
  | tuple
  | tupleStruct
  | map
  | struct
  | tupleVariant
  | structVariant
deriving DecidableEq

/-- Closer token owed by each EndToken kind. -/
def EndToken.token : EndToken → Token
  | .seq => .seqEnd
  | .tuple => .tupleEnd
  | .tupleStruct => .tupleStructEnd
  | .map => .mapEnd
  | .struct => .structEnd
  | .tupleVariant => .tupleVariantEnd
  | .structVariant => .structVariantEnd

/-- Token.isSkipField: does this token match Token::SkipStructField left curly dots right curly
(the filter used by peek_token_opt and next_token_opt in src/de.rs lines 52 to 67). -/
def Token.isSkipField : Token → Bool
  | .skipStructField _ => true
  | _ => false

/-- Token.isEnder: is this one of the seven composite closer tokens (the arms
rejected as unexpected by deserialize_any, src/de.rs lines 217 to 223). -/
def Token.isEnder : Token → Bool
  | .seqEnd => true
  | .tupleEnd => true
  | .tupleStructEnd => true
  | .mapEnd => true
  | .structEnd => true
  | .tupleVariantEnd => true
  | .structVariantEnd => true
  | _ => false

/-- Remaining token count of a cursor: Serializer::remaining (src/ser.rs 29-31)
and Deserializer::remaining (src/de.rs 73-75) both return the raw length of the
unconsumed token slice or iterator, field-skip markers included. -/
def remaining (s : List Token) : Nat := s.length

/-- Serializer::next_token (src/ser.rs 20-27): split off the first scripted
token, or none when the script is exhausted.  The serializer cursor never
filters tokens. -/
def Serializer.next_token : List Token → Option (Token × List Token)
  | [] => Option.none
  | t :: rest => Option.some (t, rest)

/-- Deserializer::peek_token_opt (src/de.rs 52-57): find the first scripted
token that is not a field-skip marker, without advancing the cursor (the Rust
code clones the iterator before searching). -/
def peek_token_opt (s : List Token) : Option Token :=
  s.find? (fun t => !t.isSkipField)

/-- Deserializer::next_token_opt (src/de.rs 63-67): Iterator::find on the live
iterator, which consumes every leading field-skip marker plus the returned
token.  Returns the found token (if any) and the cursor left behind; when no
non-skip token exists the iterator is exhausted and the cursor is empty. -/
def next_token_opt (s : List Token) : Option Token × List Token :=
  match s.dropWhile Token.isSkipField with
  | [] => (Option.none, [])
  | t :: rest => (Option.some t, rest)

/-- Error values produced inside the Deserializer (src/de.rs 17-43 and
src/error.rs).  The Rust Error carries a formatted message; each constructor
here stands for one of the format strings, keeping the tokens it mentions. -/
inductive DError where
  | gotWanted (got : Token) (expected : Token)
  | endWanted (expected : Token)
  | unexpectedToken (t : Token)
  | ranOutOfTokens
  | invalidType (t : Token)
deriving DecidableEq

/-- Error values produced inside the Serializer by the assert_next_token macro
(src/ser.rs 34-77): either the scripted token disagrees with what was
serialized, or the script ended while serialization continued.  The
serializedAs component is the token form the production would have matched. -/
inductive SerError where
  | mismatch (scripted : Token) (serializedAs : Token)
  | endOfTokens (serializedAs : Token)
deriving DecidableEq

/-- Result of a deserialization step over the cursor.  out means the step
counter (fuel) of the embedding ran out; with the fuel used by the entry
points this never happens (see the termination theorem for claim C9). -/
inductive DRes (α : Type) where
  | out
  | fail (e : DError)
  | done (a : α) (rest : List Token)
deriving DecidableEq

/-- assert_next_token of the Deserializer (src/de.rs 17-32): pull the next
token (skipping field-skip markers) and require it to equal the expected
token. -/
def assert_next_token (expected : Token) (s : List Token) :
    Except DError (List Token) :=
  match next_token_opt s with
  | (Option.some t, rest) =>
      if t = expected then .ok rest else .error (.gotWanted t expected)
  | (Option.none, _) => .error (.endWanted expected)

/-- assert_next_token macro of the Serializer (src/ser.rs 34-77), in the form
used by every serialize_* method: pull the next scripted token and require it
to equal the token the production serialized as. -/
def assert_next_token_ser (serializedAs : Token) (s : List Token) :
    Except SerError (List Token) :=
  match Serializer.next_token s with
  | Option.some (t, rest) =>
      if t = serializedAs then .ok rest else .error (.mismatch t serializedAs)
  | Option.none => .error (.endOfTokens serializedAs)

/-- Value: a self-describing test-value universe standing in for the values
under test that the assert entry points are generic over.  Its Serialize
implementation (Value.serialize below) invokes the serializer callbacks of
src/ser.rs in the canonical way the derived implementations do, and its
Deserialize implementation is the deserialize_any driver of src/de.rs with the
collecting visitor (deserialize_any below). -/
inductive Value where
  | bool (b : Bool)
  | u8 (n : Nat)
  | u16 (n : Nat)
  | u32 (n : Nat)
  | u64 (n : Nat)
  | str (s : String)
  | bytes (bs : List UInt8)
  | unit
  | none
  | some (v : Value)
  | seq (vs : List Value)
  | map (ps : List (Value × Value))

mutual

/-- Structural size measure for Value, used for strong induction. -/
def Value.msize : Value → Nat
  | .some v => v.msize + 1
  | .seq vs => Value.msizeList vs + 1
  | .map ps => Value.msizeEntries ps + 1
  | _ => 1

/-- Size measure for element lists. -/
def Value.msizeList : List Value → Nat
  | [] => 1
  | v :: vs => v.msize + Value.msizeList vs

/-- Size measure for entry lists. -/
def Value.msizeEntries : List (Value × Value) → Nat
  | [] => 1
  | (k, v) :: ps => k.msize + v.msize + Value.msizeEntries ps

end

theorem Value.msize_pos (v : Value) : 1 ≤ v.msize := by
  cases v <;> simp [Value.msize]

theorem Value.msizeList_pos (vs : List Value) : 1 ≤ Value.msizeList vs := by
  cases vs with
  | nil => simp [Value.msizeList]
  | cons v vs =>
      have := Value.msize_pos v
      simp only [Value.msizeList]
      omega

theorem Value.msizeEntries_pos (ps : List (Value × Value)) :
    1 ≤ Value.msizeEntries ps := by
  cases ps with
  | nil => simp [Value.msizeEntries]
  | cons p ps =>
      rcases p with ⟨k, v⟩
      have := Value.msize_pos k
      simp only [Value.msizeEntries]
      omega

mutual

/-- Boolean equality on Value (the derived PartialEq of the Rust value under
test is structural equality). -/
def Value.beq : Value → Value → Bool
  | .bool a, .bool b => a == b
  | .u8 a, .u8 b => a == b
  | .u16 a, .u16 b => a == b
  | .u32 a, .u32 b => a == b
  | .u64 a, .u64 b => a == b
  | .str a, .str b => a == b
  | .bytes a, .bytes b => a == b
  | .unit, .unit => true
  | .none, .none => true
  | .some a, .some b => Value.beq a b
  | .seq a, .seq b => Value.beqList a b
  | .map a, .map b => Value.beqEntries a b
  | _, _ => false

/-- Boolean equality on element lists. -/
def Value.beqList : List Value → List Value → Bool
  | [], [] => true
  | v :: vs, w :: ws => Value.beq v w && Value.beqList vs ws
  | _, _ => false

/-- Boolean equality on entry lists. -/
def Value.beqEntries : List (Value × Value) → List (Value × Value) → Bool
  | [], [] => true
  | (k, v) :: ps, (l, w) :: qs =>
      Value.beq k l && Value.beq v w && Value.beqEntries ps qs
  | _, _ => false

end

theorem Value.beq_iff_eq_master : ∀ n : Nat,
    (∀ u v : Value, u.msize ≤ n → (Value.beq u v = true ↔ u = v)) ∧
    (∀ us vs : List Value, Value.msizeList us ≤ n →
      (Value.beqList us vs = true ↔ us = vs)) ∧
    (∀ ps qs : List (Value × Value), Value.msizeEntries ps ≤ n →
      (Value.beqEntries ps qs = true ↔ ps = qs)) := by
  intro n
  induction n with
  | zero =>
      refine ⟨fun u v h => absurd h (by have := Value.msize_pos u; omega),
              fun us vs h => absurd h (by have := Value.msizeList_pos us; omega),
              fun ps qs h => absurd h (by have := Value.msizeEntries_pos ps; omega)⟩
  | succ n ih =>
      obtain ⟨ihV, ihL, ihP⟩ := ih
      refine ⟨?_, ?_, ?_⟩
      · intro u v h
        cases u with
        | bool a => cases v <;> simp [Value.beq]
        | u8 a => cases v <;> simp [Value.beq]
        | u16 a => cases v <;> simp [Value.beq]
        | u32 a => cases v <;> simp [Value.beq]
        | u64 a => cases v <;> simp [Value.beq]
        | str a => cases v <;> simp [Value.beq]
        | bytes a => cases v <;> simp [Value.beq]
        | unit => cases v <;> simp [Value.beq]
        | none => cases v <;> simp [Value.beq]
        | some a =>
            cases v <;> simp only [Value.beq] <;> try simp
            exact ihV _ _ (by simp [Value.msize] at h; omega)
        | seq a =>
            cases v <;> simp only [Value.beq] <;> try simp
            exact ihL _ _ (by simp [Value.msize] at h; omega)
        | map a =>
            cases v <;> simp only [Value.beq] <;> try simp
            exact ihP _ _ (by simp [Value.msize] at h; omega)
      · intro us vs h
        cases us with
        | nil => cases vs <;> simp [Value.beqList]
        | cons u us =>
            cases vs with
            | nil => simp [Value.beqList]
            | cons v vs =>
                have h1 := Value.msize_pos u
                have h2 := Value.msizeList_pos us
                simp only [Value.msizeList] at h
                simp [Value.beqList, ihV u v (by omega), ihL us vs (by omega)]
      · intro ps qs h
        cases ps with
        | nil => cases qs <;> simp [Value.beqEntries]
        | cons p ps =>
            cases qs with
            | nil => rcases p with ⟨k, v⟩; simp [Value.beqEntries]
            | cons q qs =>
                rcases p with ⟨k, v⟩
                rcases q with ⟨l, w⟩
                simp only [Value.msizeEntries] at h
                have h1 := Value.msize_pos k
                have h2 := Value.msize_pos v
                simp [Value.beqEntries, ihV k l (by omega), ihV v w (by omega),
                      ihP ps qs (by omega)]

instance : DecidableEq Value := fun a b =>
  decidable_of_iff _ ((Value.beq_iff_eq_master a.msize).1 a b (Nat.le_refl _))

/-- Serializer::serialize_str (src/ser.rs 161-168): the ownership flavor of
the upcoming scripted token decides which callback-level representation is
asserted.  A scope-borrowed or owned flavor next in the script is matched as
that flavor; anything else (including an exhausted script) asserts the
transient-borrowed flavor Str. -/
def serialize_str (v : String) (s : List Token) : Except SerError (List Token) :=
  match s.head? with
  | Option.some (.borrowedStr _) => assert_next_token_ser (.borrowedStr v) s
  | Option.some (.string _) => assert_next_token_ser (.string v) s
  | _ => assert_next_token_ser (.str v) s

/-- Serializer::serialize_bytes (src/ser.rs 170-177): same flavor dispatch as
serialize_str, with BorrowedBytes and ByteBuf against the default Bytes. -/
def serialize_bytes (v : List UInt8) (s : List Token) :
    Except SerError (List Token) :=
  match s.head? with
  | Option.some (.borrowedBytes _) => assert_next_token_ser (.borrowedBytes v) s
  | Option.some (.byteBuf _) => assert_next_token_ser (.byteBuf v) s
  | _ => assert_next_token_ser (.bytes v) s

mutual

/-- Serialize implementation of the Value universe run against the
encode-verifier of src/ser.rs: each case invokes the serializer callback the
canonical (derived) Serialize implementation would, and that callback consumes
scripted tokens exactly as src/ser.rs does.  Scalars assert their exact token
(serialize_bool and friends); strings and bytes go through the flavor dispatch
of serialize_str and serialize_bytes; options use serialize_none and
serialize_some (src/ser.rs 179-190); sequences use serialize_seq with a known
length, per-element serialize_element and the SeqEnd closer owed by the
ComplexSerializer (src/ser.rs 245-252, 360-424); maps likewise with
serialize_map and MapEnd.  Returns the unconsumed remainder of the script on
success. -/
def Value.serialize : Value → List Token → Except SerError (List Token)
  | .bool b, s => assert_next_token_ser (.bool b) s
  | .u8 n, s => assert_next_token_ser (.u8 n) s
  | .u16 n, s => assert_next_token_ser (.u16 n) s
  | .u32 n, s => assert_next_token_ser (.u32 n) s
  | .u64 n, s => assert_next_token_ser (.u64 n) s
  | .str v, s => serialize_str v s
  | .bytes v, s => serialize_bytes v s
  | .unit, s => assert_next_token_ser .unit s
  | .none, s => assert_next_token_ser .none s
  | .some v, s =>
      match assert_next_token_ser .some s with
      | .ok s1 => Value.serialize v s1
      | .error e => .error e
  | .seq vs, s =>
      match assert_next_token_ser (.seq (Option.some vs.length)) s with
      | .ok s1 =>
          match Value.serializeElements vs s1 with
          | .ok s2 => assert_next_token_ser .seqEnd s2
          | .error e => .error e
      | .error e => .error e
  | .map ps, s =>
      match assert_next_token_ser (.map (Option.some ps.length)) s with
      | .ok s1 =>
          match Value.serializeEntries ps s1 with
          | .ok s2 => assert_next_token_ser .mapEnd s2
          | .error e => .error e
      | .error e => .error e

/-- Per-element serialize_element loop of SerializeSeq (src/ser.rs 418). -/
def Value.serializeElements : List Value → List Token → Except SerError (List Token)
  | [], s => .ok s
  | v :: vs, s =>
      match Value.serialize v s with
      | .ok s1 => Value.serializeElements vs s1
      | .error e => .error e

/-- Per-entry serialize_key and serialize_value loop of SerializeMap
(src/ser.rs 422). -/
def Value.serializeEntries : List (Value × Value) → List Token →
    Except SerError (List Token)
  | [], s => .ok s
  | (k, v) :: ps, s =>
      match Value.serialize k s with
      | .ok s1 =>
          match Value.serialize v s1 with
          | .ok s2 => Value.serializeEntries ps s2
          | .error e => .error e
      | .error e => .error e

end

mutual

/-- Canonical token script of a Value: the script its serialization emits when
every string and byte token uses the default transient-borrowed flavor.  Used
to build concrete accepted scripts and variant payloads. -/
def Value.tokens : Value → List Token
  | .bool b => [.bool b]
  | .u8 n => [.u8 n]
  | .u16 n => [.u16 n]
  | .u32 n => [.u32 n]
  | .u64 n => [.u64 n]
  | .str v => [.str v]
  | .bytes v => [.bytes v]
  | .unit => [.unit]
  | .none => [.none]
  | .some v => .some :: v.tokens
  | .seq vs => .seq (Option.some vs.length) :: Value.tokensElements vs ++ [.seqEnd]
  | .map ps => .map (Option.some ps.length) :: Value.tokensEntries ps ++ [.mapEnd]

/-- Canonical token scripts of a list of elements, concatenated. -/
def Value.tokensElements : List Value → List Token
  | [] => []
  | v :: vs => v.tokens ++ Value.tokensElements vs

/-- Canonical token scripts of a list of entries, concatenated. -/
def Value.tokensEntries : List (Value × Value) → List Token
  | [] => []
  | (k, v) :: ps => k.tokens ++ v.tokens ++ Value.tokensEntries ps

end

/-- Tag resolution for the open variant form when the tag token is followed by
Unit (src/de.rs 154-195): string flavors, bytes flavors and the unsigned
widths u8 through u64 are produced as the decoded tag value; any other tag
token is the hard failure unexpected-token (src/de.rs 195), an Error rather
than a panic. -/
def enumUnitTag : Token → Except DError Value
  | .str v => .ok (.str v)
  | .borrowedStr v => .ok (.str v)
  | .string v => .ok (.str v)
  | .bytes v => .ok (.bytes v)
  | .borrowedBytes v => .ok (.bytes v)
  | .byteBuf v => .ok (.bytes v)
  | .u8 v => .ok (.u8 v)
  | .u16 v => .ok (.u16 v)
  | .u32 v => .ok (.u32 v)
  | .u64 v => .ok (.u64 v)
  | t => .error (.unexpectedToken t)

/-- EnumMapVisitor::next_key_seed on its first call (src/de.rs 606-619): the
stored variant tag token is decoded as the single map key.  Str, Bytes and U32
tag tokens are supported; any other stored token is the hard failure
unexpected-token (src/de.rs 616), an Error rather than a panic. -/
def enumMapNextKey : Token → Except DError Value
  | .str v => .ok (.str v)
  | .bytes v => .ok (.bytes v)
  | .u32 v => .ok (.u32 v)
  | t => .error (.unexpectedToken t)

mutual

/-- Deserializer::deserialize_any (src/de.rs 114-226) driving the collecting
visitor of the Value universe, with an explicit fuel counter making the
recursion structural (the fuel chosen by the entry points always suffices; see
the termination theorem for claim C9).  Every branch mirrors one arm of the
source match: scalars, the three string flavors and three bytes flavors map to
the corresponding visit calls; None, Some, Unit, UnitStruct and NewtypeStruct
as in the source; composite openers run the sequence or map sub-visitor and
then assert the owed closer (Deserializer::visit_seq and visit_map, src/de.rs
77-103); the Enum opener resolves the tag (src/de.rs 151-200); the four
closed-form variant tokens drive the enum-as-map adapter (EnumMapVisitor,
src/de.rs 577-653) with its Seq, Map or Any payload format, the first
next_key_seed call on a Str tag being inlined as the known key; closer tokens
and the never-returned field-skip marker fail as unexpected.  Token shapes the
Value universe has no visit method for (signed integers, 128-bit widths,
floats, char) fail as an invalid-type error, which is what the serde default
visitor methods return for them. -/
def deserialize_any : Nat → List Token → DRes Value
  | 0, _ => .out
  | fuel+1, s =>
    match next_token_opt s with
    | (Option.none, _) => .fail .ranOutOfTokens
    | (Option.some t, s1) =>
      match t with
      | .bool v => .done (.bool v) s1
      | .u8 v => .done (.u8 v) s1
      | .u16 v => .done (.u16 v) s1
      | .u32 v => .done (.u32 v) s1
      | .u64 v => .done (.u64 v) s1
      | .i8 v => .fail (.invalidType (.i8 v))
      | .i16 v => .fail (.invalidType (.i16 v))
      | .i32 v => .fail (.invalidType (.i32 v))
      | .i64 v => .fail (.invalidType (.i64 v))
      | .i128 v => .fail (.invalidType (.i128 v))
      | .u128 v => .fail (.invalidType (.u128 v))
      | .f32 v => .fail (.invalidType (.f32 v))
      | .f64 v => .fail (.invalidType (.f64 v))
      | .char v => .fail (.invalidType (.char v))
      | .str v => .done (.str v) s1
      | .borrowedStr v => .done (.str v) s1
      | .string v => .done (.str v) s1
      | .bytes v => .done (.bytes v) s1
      | .borrowedBytes v => .done (.bytes v) s1
      | .byteBuf v => .done (.bytes v) s1
      | .none => .done .none s1
      | .some =>
          match deserialize_any fuel s1 with
          | .done v r => .done (.some v) r
          | r => r
      | .unit => .done .unit s1
      | .unitStruct _ => .done .unit s1
      | .newtypeStruct _ => deserialize_any fuel s1
      | .seq len =>
          match deSeqElements fuel len EndToken.seq s1 with
          | .done vs s2 =>
              match assert_next_token Token.seqEnd s2 with
              | .ok s3 => .done (.seq vs) s3
              | .error e => .fail e
          | .out => .out
          | .fail e => .fail e
      | .tuple len =>
          match deSeqElements fuel (Option.some len) EndToken.tuple s1 with
          | .done vs s2 =>
              match assert_next_token Token.tupleEnd s2 with
              | .ok s3 => .done (.seq vs) s3
              | .error e => .fail e
          | .out => .out
          | .fail e => .fail e
      | .tupleStruct _ len =>
          match deSeqElements fuel (Option.some len) EndToken.tupleStruct s1 with
          | .done vs s2 =>
              match assert_next_token Token.tupleStructEnd s2 with
              | .ok s3 => .done (.seq vs) s3
              | .error e => .fail e
          | .out => .out
          | .fail e => .fail e
      | .map len =>
          match deMapElements fuel len EndToken.map s1 with
          | .done ps s2 =>
              match assert_next_token Token.mapEnd s2 with
              | .ok s3 => .done (.map ps) s3
              | .error e => .fail e
          | .out => .out
          | .fail e => .fail e
      | .struct _ len =>
          match deMapElements fuel (Option.some len) EndToken.struct s1 with
          | .done ps s2 =>
              match assert_next_token Token.structEnd s2 with
              | .ok s3 => .done (.map ps) s3
              | .error e => .fail e
          | .out => .out
          | .fail e => .fail e
      | .enum _ =>
          match next_token_opt s1 with
          | (Option.none, _) => .fail .ranOutOfTokens
          | (Option.some variantTok, s2) =>
            match peek_token_opt s2 with
            | Option.none => .fail .ranOutOfTokens
            | Option.some nx =>
              if nx = Token.unit then
                match enumUnitTag variantTok with
                | .ok v =>
                    match next_token_opt s2 with
                    | (Option.some _, s3) => .done v s3
                    | (Option.none, _) => .fail .ranOutOfTokens
                | .error e => .fail e
              else
                match enumMapNextKey variantTok with
                | .error e => .fail e
                | .ok k =>
                    match deserialize_any fuel s2 with
                    | .done v r => .done (.map [(k, v)]) r
                    | r => r
      | .unitVariant _ variant => .done (.str variant) s1
      | .newtypeVariant _ variant =>
          match deserialize_any fuel s1 with
          | .done v r => .done (.map [(.str variant, v)]) r
          | r => r
      | .tupleVariant _ variant _ =>
          match deSeqElements fuel Option.none EndToken.tupleVariant s1 with
          | .done vs s2 =>
              match assert_next_token Token.tupleVariantEnd s2 with
              | .ok s3 => .done (.map [(.str variant, .seq vs)]) s3
              | .error e => .fail e
          | .out => .out
          | .fail e => .fail e
      | .structVariant _ variant _ =>
          match deMapElements fuel Option.none EndToken.structVariant s1 with
          | .done ps s2 =>
              match assert_next_token Token.structVariantEnd s2 with
              | .ok s3 => .done (.map [(.str variant, .map ps)]) s3
              | .error e => .fail e
          | .out => .out
          | .fail e => .fail e
      | .seqEnd => .fail (.unexpectedToken .seqEnd)
      | .tupleEnd => .fail (.unexpectedToken .tupleEnd)
      | .tupleStructEnd => .fail (.unexpectedToken .tupleStructEnd)
      | .mapEnd => .fail (.unexpectedToken .mapEnd)
      | .structEnd => .fail (.unexpectedToken .structEnd)
      | .tupleVariantEnd => .fail (.unexpectedToken .tupleVariantEnd)
      | .structVariantEnd => .fail (.unexpectedToken .structVariantEnd)
      | .skipStructField n => .fail (.unexpectedToken (.skipStructField n))

/-- DeserializerSeqVisitor loop (src/de.rs 393-416) as driven by a collecting
visit_seq: next_element_seed first peeks, stopping when the owed closer token
is next; otherwise the running length hint is decremented (saturating at zero)
and one element is deserialized recursively.  The closer itself is asserted by
the caller, not consumed here. -/
def deSeqElements : Nat → Option Nat → EndToken → List Token → DRes (List Value)
  | 0, _, _, _ => .out
  | fuel+1, len, e, s =>
    if peek_token_opt s = Option.some e.token then .done [] s
    else
      match deserialize_any fuel s with
      | .done v s1 =>
          match deSeqElements fuel (len.map (fun n => n - 1)) e s1 with
          | .done vs s2 => .done (v :: vs) s2
          | r => r
      | .out => .out
      | .fail er => .fail er

/-- DeserializerMapVisitor loop (src/de.rs 420-450) as driven by a collecting
visit_map: next_key_seed peeks for the owed closer and otherwise decrements
the saturating length hint and deserializes a key; next_value_seed
deserializes the value with no peek. -/
def deMapElements : Nat → Option Nat → EndToken → List Token →
    DRes (List (Value × Value))
  | 0, _, _, _ => .out
  | fuel+1, len, e, s =>
    if peek_token_opt s = Option.some e.token then .done [] s
    else
      match deserialize_any fuel s with
      | .done k s1 =>
          match deserialize_any fuel s1 with
          | .done v s2 =>
              match deMapElements fuel (len.map (fun n => n - 1)) e s2 with
              | .done ps s3 => .done ((k, v) :: ps) s3
              | r => r
          | .out => .out
          | .fail er => .fail er
      | .out => .out
      | .fail er => .fail er

end

/-- DeserializerEnumVisitor::tuple_variant (src/de.rs 509-537) driving a
collecting visitor: a closed-form TupleVariant token is consumed and its
declared length must equal the requested length, a bare Seq token with a known
length is treated the same way (with the Seq closer owed instead), a length
mismatch is the hard failure unexpected-token naming the consumed opener, and
any other upcoming token falls back to deserialize_any without consuming. -/
def tuple_variant (fuel : Nat) (len : Nat) (s : List Token) : DRes Value :=
  match peek_token_opt s with
  | Option.none => .fail .ranOutOfTokens
  | Option.some t =>
    match t with
    | .tupleVariant _ _ enumLen =>
        match next_token_opt s with
        | (Option.some tok, s1) =>
            if len = enumLen then
              match deSeqElements fuel (Option.some len) EndToken.tupleVariant s1 with
              | .done vs s2 =>
                  match assert_next_token Token.tupleVariantEnd s2 with
                  | .ok s3 => .done (.seq vs) s3
                  | .error e => .fail e
              | .out => .out
              | .fail e => .fail e
            else .fail (.unexpectedToken tok)
        | (Option.none, _) => .fail .ranOutOfTokens
    | .seq (Option.some enumLen) =>
        match next_token_opt s with
        | (Option.some tok, s1) =>
            if len = enumLen then
              match deSeqElements fuel (Option.some len) EndToken.seq s1 with
              | .done vs s2 =>
                  match assert_next_token Token.seqEnd s2 with
                  | .ok s3 => .done (.seq vs) s3
                  | .error e => .fail e
              | .out => .out
              | .fail e => .fail e
            else .fail (.unexpectedToken tok)
        | (Option.none, _) => .fail .ranOutOfTokens
    | _ => deserialize_any fuel s

/-- Deserializer::deserialize_tuple_struct (src/de.rs 300-332) driving a
collecting visitor: accepts a bare Unit, a UnitStruct whose name is asserted
against the requested name, a bare Seq or Tuple opener, or a TupleStruct
opener asserted with the requested name and the declared length bound from
the token itself (so only the name is validated); anything else falls back to
deserialize_any. -/
def deserialize_tuple_struct (fuel : Nat) (name : String) (len : Nat)
    (s : List Token) : DRes Value :=
  match peek_token_opt s with
  | Option.none => .fail .ranOutOfTokens
  | Option.some t =>
    match t with
    | .unit =>
        match next_token_opt s with
        | (Option.some _, s1) => .done .unit s1
        | (Option.none, _) => .fail .ranOutOfTokens
    | .unitStruct _ =>
        match assert_next_token (Token.unitStruct name) s with
        | .ok s1 => .done .unit s1
        | .error e => .fail e
    | .seq _ =>
        match next_token_opt s with
        | (Option.some _, s1) =>
            match deSeqElements fuel (Option.some len) EndToken.seq s1 with
            | .done vs s2 =>
                match assert_next_token Token.seqEnd s2 with
                | .ok s3 => .done (.seq vs) s3
                | .error e => .fail e
            | .out => .out
            | .fail e => .fail e
        | (Option.none, _) => .fail .ranOutOfTokens
    | .tuple _ =>
        match next_token_opt s with
        | (Option.some _, s1) =>
            match deSeqElements fuel (Option.some len) EndToken.tuple s1 with
            | .done vs s2 =>
                match assert_next_token Token.tupleEnd s2 with
                | .ok s3 => .done (.seq vs) s3
                | .error e => .fail e
            | .out => .out
            | .fail e => .fail e
        | (Option.none, _) => .fail .ranOutOfTokens
    | .tupleStruct _ tokLen =>
        match assert_next_token (Token.tupleStruct name tokLen) s with
        | .ok s1 =>
            match deSeqElements fuel (Option.some len) EndToken.tupleStruct s1 with
            | .done vs s2 =>
                match assert_next_token Token.tupleStructEnd s2 with
                | .ok s3 => .done (.seq vs) s3
                | .error e => .fail e
            | .out => .out
            | .fail e => .fail e
        | .error e => .fail e
    | _ => deserialize_any fuel s

/-- Deserializer::deserialize_struct (src/de.rs 334-354) driving a collecting
visitor: a Struct opener is asserted with the requested name and the declared
length bound from the token itself (so only the name is validated), a bare Map
opener is consumed without any check, and both proceed with the map
sub-visitor whose length hint is the number of statically requested fields;
anything else falls back to deserialize_any. -/
def deserialize_struct (fuel : Nat) (name : String) (fields : List String)
    (s : List Token) : DRes Value :=
  match peek_token_opt s with
  | Option.none => .fail .ranOutOfTokens
  | Option.some t =>
    match t with
    | .struct _ tokLen =>
        match assert_next_token (Token.struct name tokLen) s with
        | .ok s1 =>
            match deMapElements fuel (Option.some fields.length) EndToken.struct s1 with
            | .done ps s2 =>
                match assert_next_token Token.structEnd s2 with
                | .ok s3 => .done (.map ps) s3
                | .error e => .fail e
            | .out => .out
            | .fail e => .fail e
        | .error e => .fail e
    | .map _ =>
        match next_token_opt s with
        | (Option.some _, s1) =>
            match deMapElements fuel (Option.some fields.length) EndToken.map s1 with
            | .done ps s2 =>
                match assert_next_token Token.mapEnd s2 with
                | .ok s3 => .done (.map ps) s3
                | .error e => .fail e
            | .out => .out
            | .fail e => .fail e
        | (Option.none, _) => .fail .ranOutOfTokens
    | _ => deserialize_any fuel s

/-- Fuel supplied by the decode entry points: linear in the script length and
always sufficient (see the termination theorem for claim C9). -/
def defaultFuel (s : List Token) : Nat := 2 * remaining s + 2

/-- Panics raised by the outer assertion layer in src/assert.rs; the inner
verifier and driver only return Error values. -/
inductive Panic where
  | serFailed (e : SerError)
  | remainingTokens (n : Nat)
  | deFailed (e : DError)
  | deFailedInPlace (e : DError)
  | assertNotEq (got : Value) (expected : Value)
  | outOfFuel
deriving DecidableEq

/-- assert_ser_tokens (src/assert.rs 66-80): serialize the value against the
script, panic on a serialization error, then panic if any tokens remain. -/
def assert_ser_tokens (value : Value) (tokens : List Token) : Except Panic Unit :=
  match Value.serialize value tokens with
  | .error e => .error (.serFailed e)
  | .ok rest =>
      if remaining rest > 0 then .error (.remainingTokens (remaining rest))
      else .ok ()

/-- Modelled from the spec: the in-place decode variant of the consumed
type-level decode capability (spec section 6), which serde supplies as the
default deserialize_in_place of the Deserialize trait.  The default method
constructs a fresh value with the same deserializer and assigns it over the
previous instance, so the resulting place is the freshly decoded value and
the previous contents are ignored. -/
def deserialize_in_place (fuel : Nat) (s : List Token) (_place : Value) :
    DRes Value :=
  deserialize_any fuel s

/-- assert_de_tokens (src/assert.rs 165-195): deserialize, panic on error,
assert equality with the expected value, panic if tokens remain; then repeat
over a fresh cursor with deserialize_in_place into the just-deserialized
value, with the same equality and leftover checks. -/
def assert_de_tokens (value : Value) (tokens : List Token) : Except Panic Unit :=
  match deserialize_any (defaultFuel tokens) tokens with
  | .out => .error .outOfFuel
  | .fail e => .error (.deFailed e)
  | .done w rest =>
      if w = value then
        if remaining rest > 0 then .error (.remainingTokens (remaining rest))
        else
          match deserialize_in_place (defaultFuel tokens) tokens w with
          | .out => .error .outOfFuel
          | .fail e => .error (.deFailedInPlace e)
          | .done w2 rest2 =>
              if w2 = value then
                if remaining rest2 > 0 then
                  .error (.remainingTokens (remaining rest2))
                else .ok ()
              else .error (.assertNotEq w2 value)
      else .error (.assertNotEq w value)

/-- assert_tokens (src/assert.rs 32-39): run assert_ser_tokens, then
assert_de_tokens. -/
def assert_tokens (value : Value) (tokens : List Token) : Except Panic Unit :=
  match assert_ser_tokens value tokens with
  | .ok _ => assert_de_tokens value tokens
  | .error e => .error e

/-- Post-failure cursor drain of assert_de_tokens_error (src/assert.rs
229-231): after the expected deserialization failure, a single
next_token_opt call is made before the leftover check, to account for a peek
that triggered the error without consuming (the FIXME in the source). -/
def assert_de_tokens_error_drain (s : List Token) : List Token :=
  (next_token_opt s).2

/-- Number of tokens of a cursor that are not field-skip markers. -/
def nonSkipCount (s : List Token) : Nat :=
  (s.filter (fun t => !t.isSkipField)).length

/-- Scripts on which serialize_str asserts the default transient-borrowed
flavor: the upcoming token is neither the scope-borrowed nor the owned string
flavor (src/ser.rs 165, the catch-all arm). -/
def strDefaultFlavor (s : List Token) : Bool :=
  match s.head? with
  | Option.some (.borrowedStr _) => false
  | Option.some (.string _) => false
  | _ => true

/-- Scripts on which serialize_bytes asserts the default transient-borrowed
flavor (src/ser.rs 174, the catch-all arm). -/
def bytesDefaultFlavor (s : List Token) : Bool :=
  match s.head? with
  | Option.some (.borrowedBytes _) => false
  | Option.some (.byteBuf _) => false
  | _ => true

/-- Upcoming tokens on which tuple_variant falls back to deserialize_any
(src/de.rs 535, the catch-all arm). -/
def tupleVariantFallback (t : Token) : Bool :=
  match t with
  | .tupleVariant _ _ _ => false
  | .seq (Option.some _) => false
  | _ => true

/-- Upcoming tokens on which deserialize_tuple_struct falls back to
deserialize_any (src/de.rs 330, the catch-all arm). -/
def tupleStructFallback (t : Token) : Bool :=
  match t with
  | .unit => false
  | .unitStruct _ => false
  | .seq _ => false
  | .tuple _ => false
  | .tupleStruct _ _ => false
  | _ => true

/-- Upcoming tokens on which deserialize_struct falls back to deserialize_any
(src/de.rs 352, the catch-all arm). -/
def structFallback (t : Token) : Bool :=
  match t with
  | .struct _ _ => false
  | .map _ => false
  | _ => true

instance {ε α : Type} [DecidableEq ε] [DecidableEq α] : DecidableEq (Except ε α) :=
  fun a b => by
    cases a with
    | ok x =>
        cases b with
        | ok y => exact decidable_of_iff (x = y) (by simp)
        | error f => exact isFalse (by simp)
    | error e =>
        cases b with
        | ok y => exact isFalse (by simp)
        | error f => exact decidable_of_iff (e = f) (by simp)

section CursorLemmas

theorem next_token_opt_cons_not_skip {t : Token} (h : t.isSkipField = false)
    (r : List Token) : next_token_opt (t :: r) = (Option.some t, r) := by
  simp [next_token_opt, List.dropWhile, h]

theorem peek_token_opt_cons_not_skip {t : Token} (h : t.isSkipField = false)
    (r : List Token) : peek_token_opt (t :: r) = Option.some t := by
  simp [peek_token_opt, List.find?, h]

theorem next_token_opt_fst_eq_peek (s : List Token) :
    (next_token_opt s).1 = peek_token_opt s := by
  induction s with
  | nil => simp [next_token_opt, peek_token_opt]
  | cons t r ih =>
      by_cases h : t.isSkipField = true
      · simpa [next_token_opt, peek_token_opt, List.dropWhile, List.find?, h]
          using ih
      · simp at h
        simp [next_token_opt_cons_not_skip h, peek_token_opt_cons_not_skip h]

theorem next_token_opt_not_skip {s : List Token} {t : Token} {r : List Token}
    (h : next_token_opt s = (Option.some t, r)) : t.isSkipField = false := by
  have hp : peek_token_opt s = Option.some t := by
    rw [← next_token_opt_fst_eq_peek, h]
  have := List.find?_some hp
  simpa using this

theorem next_token_opt_consumes {s : List Token} {t : Token} {r : List Token}
    (h : next_token_opt s = (Option.some t, r)) :
    r.length < s.length ∧ r <:+ s := by
  unfold next_token_opt at h
  have hsfx : s.dropWhile Token.isSkipField <:+ s := List.dropWhile_suffix _
  cases hd : s.dropWhile Token.isSkipField with
  | nil => simp [hd] at h
  | cons t0 r0 =>
      rw [hd] at h
      simp only [Prod.mk.injEq, Option.some.injEq] at h
      obtain ⟨h1, h2⟩ := h
      subst h1
      subst h2
      rw [hd] at hsfx
      constructor
      · have hle := hsfx.length_le
        simp at hle
        omega
      · exact (List.suffix_cons _ _).trans hsfx

theorem assert_next_token_ok {expected : Token} {s r : List Token}
    (h : assert_next_token expected s = .ok r) :
    next_token_opt s = (Option.some expected, r) := by
  unfold assert_next_token at h
  cases hn : next_token_opt s with
  | mk o rest =>
      cases o with
      | none => rw [hn] at h; simp at h
      | some t =>
          rw [hn] at h
          by_cases ht : t = expected
          · subst ht; simp at h; subst h; rfl
          · simp [ht] at h

theorem assert_next_token_cons {expected : Token} (h : expected.isSkipField = false)
    (r : List Token) : assert_next_token expected (expected :: r) = .ok r := by
  simp [assert_next_token, next_token_opt_cons_not_skip h]

theorem assert_next_token_ok_consumes {expected : Token} {s r : List Token}
    (h : assert_next_token expected s = .ok r) :
    r.length < s.length ∧ r <:+ s :=
  next_token_opt_consumes (assert_next_token_ok h)

theorem assert_next_token_ser_ok_iff {tok : Token} {s r : List Token} :
    assert_next_token_ser tok s = .ok r ↔ s = tok :: r := by
  constructor
  · intro h
    unfold assert_next_token_ser Serializer.next_token at h
    cases s with
    | nil => simp at h
    | cons t rest =>
        by_cases ht : t = tok
        · subst ht; simp at h; subst h; rfl
        · simp [ht] at h
  · intro h
    subst h
    simp [assert_next_token_ser, Serializer.next_token]

end CursorLemmas

section SerLemmas

/-- A successful serialization starts by consuming a first scripted token that
is neither a field-skip marker nor a closer. -/
theorem serialize_head {v : Value} {s rest : List Token}
    (h : Value.serialize v s = .ok rest) :
    ∃ t s1, s = t :: s1 ∧ t.isSkipField = false ∧ t.isEnder = false := by
  cases v with
  | bool b =>
      simp only [Value.serialize] at h
      exact ⟨_, _, assert_next_token_ser_ok_iff.mp h, rfl, rfl⟩
  | u8 n =>
      simp only [Value.serialize] at h
      exact ⟨_, _, assert_next_token_ser_ok_iff.mp h, rfl, rfl⟩
  | u16 n =>
      simp only [Value.serialize] at h
      exact ⟨_, _, assert_next_token_ser_ok_iff.mp h, rfl, rfl⟩
  | u32 n =>
      simp only [Value.serialize] at h
      exact ⟨_, _, assert_next_token_ser_ok_iff.mp h, rfl, rfl⟩
  | u64 n =>
      simp only [Value.serialize] at h
      exact ⟨_, _, assert_next_token_ser_ok_iff.mp h, rfl, rfl⟩
  | str v =>
      simp only [Value.serialize, serialize_str] at h
      split at h
      · exact ⟨_, _, assert_next_token_ser_ok_iff.mp h, rfl, rfl⟩
      · exact ⟨_, _, assert_next_token_ser_ok_iff.mp h, rfl, rfl⟩
      · exact ⟨_, _, assert_next_token_ser_ok_iff.mp h, rfl, rfl⟩
  | bytes v =>
      simp only [Value.serialize, serialize_bytes] at h
      split at h
      · exact ⟨_, _, assert_next_token_ser_ok_iff.mp h, rfl, rfl⟩
      · exact ⟨_, _, assert_next_token_ser_ok_iff.mp h, rfl, rfl⟩
      · exact ⟨_, _, assert_next_token_ser_ok_iff.mp h, rfl, rfl⟩
  | unit =>
      simp only [Value.serialize] at h
      exact ⟨_, _, assert_next_token_ser_ok_iff.mp h, rfl, rfl⟩
  | none =>
      simp only [Value.serialize] at h
      exact ⟨_, _, assert_next_token_ser_ok_iff.mp h, rfl, rfl⟩
  | some v =>
      simp only [Value.serialize] at h
      cases heq : assert_next_token_ser Token.some s with
      | error e => simp only [heq] at h; exact absurd h (by simp)
      | ok s1 => exact ⟨_, _, assert_next_token_ser_ok_iff.mp heq, rfl, rfl⟩
  | seq vs =>
      simp only [Value.serialize] at h
      cases heq : assert_next_token_ser (Token.seq (Option.some vs.length)) s with
      | error e => simp only [heq] at h; exact absurd h (by simp)
      | ok s1 => exact ⟨_, _, assert_next_token_ser_ok_iff.mp heq, rfl, rfl⟩
  | map ps =>
      simp only [Value.serialize] at h
      cases heq : assert_next_token_ser (Token.map (Option.some ps.length)) s with
      | error e => simp only [heq] at h; exact absurd h (by simp)
      | ok s1 => exact ⟨_, _, assert_next_token_ser_ok_iff.mp heq, rfl, rfl⟩

/-- Serialization consumes tokens: a value strictly, element and entry loops
at least monotonically. -/
theorem serialize_consumes_master : ∀ n : Nat,
    (∀ v : Value, ∀ s rest : List Token, v.msize ≤ n →
      Value.serialize v s = .ok rest → rest.length < s.length) ∧
    (∀ vs : List Value, ∀ s rest : List Token, Value.msizeList vs ≤ n →
      Value.serializeElements vs s = .ok rest → rest.length ≤ s.length) ∧
    (∀ ps : List (Value × Value), ∀ s rest : List Token, Value.msizeEntries ps ≤ n →
      Value.serializeEntries ps s = .ok rest → rest.length ≤ s.length) := by
  intro n
  induction n with
  | zero =>
      refine ⟨fun v s rest h _ => absurd h (by have := Value.msize_pos v; omega),
              fun vs s rest h _ => absurd h (by have := Value.msizeList_pos vs; omega),
              fun ps s rest h _ => absurd h (by have := Value.msizeEntries_pos ps; omega)⟩
  | succ n ih =>
      obtain ⟨ihV, ihL, ihP⟩ := ih
      refine ⟨?_, ?_, ?_⟩
      · intro v s rest hsz h
        cases v with
        | bool b =>
            simp only [Value.serialize] at h
            rw [assert_next_token_ser_ok_iff.mp h]
            simp
        | u8 m =>
            simp only [Value.serialize] at h
            rw [assert_next_token_ser_ok_iff.mp h]
            simp
        | u16 m =>
            simp only [Value.serialize] at h
            rw [assert_next_token_ser_ok_iff.mp h]
            simp
        | u32 m =>
            simp only [Value.serialize] at h
            rw [assert_next_token_ser_ok_iff.mp h]
            simp
        | u64 m =>
            simp only [Value.serialize] at h
            rw [assert_next_token_ser_ok_iff.mp h]
            simp
        | str v =>
            simp only [Value.serialize, serialize_str] at h
            split at h <;> (rw [assert_next_token_ser_ok_iff.mp h]; simp)
        | bytes v =>
            simp only [Value.serialize, serialize_bytes] at h
            split at h <;> (rw [assert_next_token_ser_ok_iff.mp h]; simp)
        | unit =>
            simp only [Value.serialize] at h
            rw [assert_next_token_ser_ok_iff.mp h]
            simp
        | none =>
            simp only [Value.serialize] at h
            rw [assert_next_token_ser_ok_iff.mp h]
            simp
        | some v =>
            simp only [Value.serialize] at h
            cases heq : assert_next_token_ser Token.some s with
            | error e => simp only [heq] at h; exact absurd h (by simp)
            | ok s1 =>
                simp only [heq] at h
                rw [assert_next_token_ser_ok_iff] at heq
                subst heq
                have hv := ihV v s1 rest (by simp [Value.msize] at hsz; omega) h
                simp
                omega
        | seq vs =>
            simp only [Value.serialize] at h
            cases heq : assert_next_token_ser (Token.seq (Option.some vs.length)) s with
            | error e => simp only [heq] at h; exact absurd h (by simp)
            | ok s1 =>
                simp only [heq] at h
                rw [assert_next_token_ser_ok_iff] at heq
                subst heq
                cases heq2 : Value.serializeElements vs s1 with
                | error e => simp only [heq2] at h; exact absurd h (by simp)
                | ok s2 =>
                    simp only [heq2] at h
                    have hl := ihL vs s1 s2 (by simp [Value.msize] at hsz; omega) heq2
                    have h3 := assert_next_token_ser_ok_iff.mp h
                    subst h3
                    simp at hl ⊢
                    omega
        | map ps =>
            simp only [Value.serialize] at h
            cases heq : assert_next_token_ser (Token.map (Option.some ps.length)) s with
            | error e => simp only [heq] at h; exact absurd h (by simp)
            | ok s1 =>
                simp only [heq] at h
                rw [assert_next_token_ser_ok_iff] at heq
                subst heq
                cases heq2 : Value.serializeEntries ps s1 with
                | error e => simp only [heq2] at h; exact absurd h (by simp)
                | ok s2 =>
                    simp only [heq2] at h
                    have hl := ihP ps s1 s2 (by simp [Value.msize] at hsz; omega) heq2
                    have h3 := assert_next_token_ser_ok_iff.mp h
                    subst h3
                    simp at hl ⊢
                    omega
      · intro vs s rest hsz h
        cases vs with
        | nil =>
            simp only [Value.serializeElements] at h
            cases h
            exact Nat.le_refl _
        | cons v vs =>
            simp only [Value.serializeElements] at h
            cases heq : Value.serialize v s with
            | error e => simp only [heq] at h; exact absurd h (by simp)
            | ok s1 =>
                simp only [heq] at h
                have h1 := Value.msize_pos v
                have h2 := Value.msizeList_pos vs
                simp only [Value.msizeList] at hsz
                have hv := ihV v s s1 (by omega) heq
                have hl := ihL vs s1 rest (by omega) h
                omega
      · intro ps s rest hsz h
        cases ps with
        | nil =>
            simp only [Value.serializeEntries] at h
            cases h
            exact Nat.le_refl _
        | cons p ps =>
            rcases p with ⟨k, v⟩
            simp only [Value.serializeEntries] at h
            cases heq : Value.serialize k s with
            | error e => simp only [heq] at h; exact absurd h (by simp)
            | ok s1 =>
                simp only [heq] at h
                cases heq2 : Value.serialize v s1 with
                | error e => simp only [heq2] at h; exact absurd h (by simp)
                | ok s2 =>
                    simp only [heq2] at h
                    have h1 := Value.msize_pos k
                    have h2 := Value.msize_pos v
                    have h3 := Value.msizeEntries_pos ps
                    simp only [Value.msizeEntries] at hsz
                    have hk := ihV k s s1 (by omega) heq
                    have hv := ihV v s1 s2 (by omega) heq2
                    have hp := ihP ps s2 rest (by omega) h
                    omega

/-- Serializing a value consumes at least one token. -/
theorem serialize_consumes {v : Value} {s rest : List Token}
    (h : Value.serialize v s = .ok rest) : rest.length < s.length :=
  (serialize_consumes_master v.msize).1 v s rest (Nat.le_refl _) h

/-- The element loop never grows the cursor. -/
theorem serializeElements_consumes {vs : List Value} {s rest : List Token}
    (h : Value.serializeElements vs s = .ok rest) : rest.length ≤ s.length :=
  (serialize_consumes_master (Value.msizeList vs)).2.1 vs s rest (Nat.le_refl _) h

/-- The entry loop never grows the cursor. -/
theorem serializeEntries_consumes {ps : List (Value × Value)} {s rest : List Token}
    (h : Value.serializeEntries ps s = .ok rest) : rest.length ≤ s.length :=
  (serialize_consumes_master (Value.msizeEntries ps)).2.2 ps s rest (Nat.le_refl _) h

end SerLemmas

section RoundTrip

theorem EndToken.token_not_skip (e : EndToken) : (e.token).isSkipField = false := by
  cases e <;> rfl

theorem EndToken.token_ender (e : EndToken) : (e.token).isEnder = true := by
  cases e <;> rfl

/-- Round-trip master lemma: a script accepted by the encode-verifier decodes
(with any sufficient fuel) to the very value that was encoded, leaving exactly
the tokens the encoder left; elementwise for the sequence and map loops, which
stop exactly at the owed closer. -/
theorem ser_de_master : ∀ n : Nat,
    (∀ v : Value, ∀ s rest : List Token, v.msize ≤ n →
      Value.serialize v s = .ok rest →
      ∀ f : Nat, s.length + 1 ≤ f + rest.length →
      deserialize_any f s = .done v rest) ∧
    (∀ vs : List Value, ∀ s s2 : List Token, Value.msizeList vs ≤ n →
      Value.serializeElements vs s = .ok s2 →
      ∀ e : EndToken, ∀ r2 : List Token, s2 = e.token :: r2 →
      ∀ len : Option Nat, ∀ f : Nat, s.length + 2 ≤ f + s2.length →
      deSeqElements f len e s = .done vs s2) ∧
    (∀ ps : List (Value × Value), ∀ s s2 : List Token, Value.msizeEntries ps ≤ n →
      Value.serializeEntries ps s = .ok s2 →
      ∀ e : EndToken, ∀ r2 : List Token, s2 = e.token :: r2 →
      ∀ len : Option Nat, ∀ f : Nat, s.length + 2 ≤ f + s2.length →
      deMapElements f len e s = .done ps s2) := by
  intro n
  induction n with
  | zero =>
      refine ⟨fun v s rest h _ => absurd h (by have := Value.msize_pos v; omega),
              fun vs s s2 h _ => absurd h (by have := Value.msizeList_pos vs; omega),
              fun ps s s2 h _ => absurd h (by have := Value.msizeEntries_pos ps; omega)⟩
  | succ n ih =>
      obtain ⟨ihV, ihL, ihP⟩ := ih
      refine ⟨?_, ?_, ?_⟩
      · intro v s rest hsz h
        cases v with
        | bool b =>
            simp only [Value.serialize] at h
            have hs := assert_next_token_ser_ok_iff.mp h
            subst hs
            intro f hf
            obtain ⟨g, rfl⟩ : ∃ g, f = g + 1 := ⟨f - 1, by simp at hf; omega⟩
            simp [deserialize_any, next_token_opt, List.dropWhile, Token.isSkipField]
        | u8 m =>
            simp only [Value.serialize] at h
            have hs := assert_next_token_ser_ok_iff.mp h
            subst hs
            intro f hf
            obtain ⟨g, rfl⟩ : ∃ g, f = g + 1 := ⟨f - 1, by simp at hf; omega⟩
            simp [deserialize_any, next_token_opt, List.dropWhile, Token.isSkipField]
        | u16 m =>
            simp only [Value.serialize] at h
            have hs := assert_next_token_ser_ok_iff.mp h
            subst hs
            intro f hf
            obtain ⟨g, rfl⟩ : ∃ g, f = g + 1 := ⟨f - 1, by simp at hf; omega⟩
            simp [deserialize_any, next_token_opt, List.dropWhile, Token.isSkipField]
        | u32 m =>
            simp only [Value.serialize] at h
            have hs := assert_next_token_ser_ok_iff.mp h
            subst hs
            intro f hf
            obtain ⟨g, rfl⟩ : ∃ g, f = g + 1 := ⟨f - 1, by simp at hf; omega⟩
            simp [deserialize_any, next_token_opt, List.dropWhile, Token.isSkipField]
        | u64 m =>
            simp only [Value.serialize] at h
            have hs := assert_next_token_ser_ok_iff.mp h
            subst hs
            intro f hf
            obtain ⟨g, rfl⟩ : ∃ g, f = g + 1 := ⟨f - 1, by simp at hf; omega⟩
            simp [deserialize_any, next_token_opt, List.dropWhile, Token.isSkipField]
        | unit =>
            simp only [Value.serialize] at h
            have hs := assert_next_token_ser_ok_iff.mp h
            subst hs
            intro f hf
            obtain ⟨g, rfl⟩ : ∃ g, f = g + 1 := ⟨f - 1, by simp at hf; omega⟩
            simp [deserialize_any, next_token_opt, List.dropWhile, Token.isSkipField]
        | none =>
            simp only [Value.serialize] at h
            have hs := assert_next_token_ser_ok_iff.mp h
            subst hs
            intro f hf
            obtain ⟨g, rfl⟩ : ∃ g, f = g + 1 := ⟨f - 1, by simp at hf; omega⟩
            simp [deserialize_any, next_token_opt, List.dropWhile, Token.isSkipField]
        | str v =>
            simp only [Value.serialize, serialize_str] at h
            split at h <;>
              (have hs := assert_next_token_ser_ok_iff.mp h
               subst hs
               intro f hf
               obtain ⟨g, rfl⟩ : ∃ g, f = g + 1 := ⟨f - 1, by simp at hf; omega⟩
               simp [deserialize_any, next_token_opt, List.dropWhile, Token.isSkipField])
        | bytes v =>
            simp only [Value.serialize, serialize_bytes] at h
            split at h <;>
              (have hs := assert_next_token_ser_ok_iff.mp h
               subst hs
               intro f hf
               obtain ⟨g, rfl⟩ : ∃ g, f = g + 1 := ⟨f - 1, by simp at hf; omega⟩
               simp [deserialize_any, next_token_opt, List.dropWhile, Token.isSkipField])
        | some v =>
            simp only [Value.serialize] at h
            cases heq : assert_next_token_ser Token.some s with
            | error e => simp only [heq] at h; exact absurd h (by simp)
            | ok s1 =>
                simp only [heq] at h
                rw [assert_next_token_ser_ok_iff] at heq
                subst heq
                intro f hf
                simp only [List.length_cons] at hf
                have hc := serialize_consumes h
                obtain ⟨g, rfl⟩ : ∃ g, f = g + 1 := ⟨f - 1, by omega⟩
                have ihv := ihV v s1 rest (by simp [Value.msize] at hsz; omega) h g
                  (by omega)
                simp [deserialize_any, next_token_opt, List.dropWhile,
                      Token.isSkipField, ihv]
        | seq vs =>
            simp only [Value.serialize] at h
            cases heq : assert_next_token_ser (Token.seq (Option.some vs.length)) s with
            | error e => simp only [heq] at h; exact absurd h (by simp)
            | ok s1 =>
                simp only [heq] at h
                rw [assert_next_token_ser_ok_iff] at heq
                subst heq
                cases heq2 : Value.serializeElements vs s1 with
                | error e => simp only [heq2] at h; exact absurd h (by simp)
                | ok s2 =>
                    simp only [heq2] at h
                    have hs2 := assert_next_token_ser_ok_iff.mp h
                    subst hs2
                    intro f hf
                    simp only [List.length_cons] at hf
                    have hc := serializeElements_consumes heq2
                    simp only [List.length_cons] at hc
                    obtain ⟨g, rfl⟩ : ∃ g, f = g + 1 := ⟨f - 1, by omega⟩
                    have ihl := ihL vs s1 (Token.seqEnd :: rest)
                      (by simp [Value.msize] at hsz; omega) heq2 EndToken.seq rest rfl
                      (Option.some vs.length) g (by simp; omega)
                    simp [deserialize_any, next_token_opt, List.dropWhile,
                          Token.isSkipField, ihl, assert_next_token]
        | map ps =>
            simp only [Value.serialize] at h
            cases heq : assert_next_token_ser (Token.map (Option.some ps.length)) s with
            | error e => simp only [heq] at h; exact absurd h (by simp)
            | ok s1 =>
                simp only [heq] at h
                rw [assert_next_token_ser_ok_iff] at heq
                subst heq
                cases heq2 : Value.serializeEntries ps s1 with
                | error e => simp only [heq2] at h; exact absurd h (by simp)
                | ok s2 =>
                    simp only [heq2] at h
                    have hs2 := assert_next_token_ser_ok_iff.mp h
                    subst hs2
                    intro f hf
                    simp only [List.length_cons] at hf
                    have hc := serializeEntries_consumes heq2
                    simp only [List.length_cons] at hc
                    obtain ⟨g, rfl⟩ : ∃ g, f = g + 1 := ⟨f - 1, by omega⟩
                    have ihl := ihP ps s1 (Token.mapEnd :: rest)
                      (by simp [Value.msize] at hsz; omega) heq2 EndToken.map rest rfl
                      (Option.some ps.length) g (by simp; omega)
                    simp [deserialize_any, next_token_opt, List.dropWhile,
                          Token.isSkipField, ihl, assert_next_token]
      · intro vs s s2 hsz h e r2 hs2 len f hf
        cases vs with
        | nil =>
            simp only [Value.serializeElements] at h
            cases h
            subst hs2
            obtain ⟨g, rfl⟩ : ∃ g, f = g + 1 := ⟨f - 1, by simp at hf; omega⟩
            have hsk := EndToken.token_not_skip e
            simp [deSeqElements, peek_token_opt, List.find?, hsk]
        | cons v vs =>
            simp only [Value.serializeElements] at h
            cases heq : Value.serialize v s with
            | error er => simp only [heq] at h; exact absurd h (by simp)
            | ok sm =>
                simp only [heq] at h
                obtain ⟨t, s1, hts, htsk, hte⟩ := serialize_head heq
                subst hts
                have hcv := serialize_consumes heq
                have hcl := serializeElements_consumes h
                subst hs2
                simp only [List.length_cons] at hf hcv hcl
                obtain ⟨g, rfl⟩ : ∃ g, f = g + 1 := ⟨f - 1, by omega⟩
                have hne : t ≠ e.token := by
                  intro hh
                  rw [hh, EndToken.token_ender] at hte
                  cases hte
                have h1 := Value.msize_pos v
                have h2 := Value.msizeList_pos vs
                simp only [Value.msizeList] at hsz
                have ihv := ihV v (t :: s1) sm (by omega) heq g
                  (by simp; omega)
                have ihl := ihL vs sm (e.token :: r2) (by omega) h e r2 rfl
                  (len.map (fun m => m - 1)) g (by simp; omega)
                simp [deSeqElements, peek_token_opt, List.find?, htsk, hne, ihv, ihl]
      · intro ps s s2 hsz h e r2 hs2 len f hf
        cases ps with
        | nil =>
            simp only [Value.serializeEntries] at h
            cases h
            subst hs2
            obtain ⟨g, rfl⟩ : ∃ g, f = g + 1 := ⟨f - 1, by simp at hf; omega⟩
            have hsk := EndToken.token_not_skip e
            simp [deMapElements, peek_token_opt, List.find?, hsk]
        | cons p ps =>
            rcases p with ⟨k, v⟩
            simp only [Value.serializeEntries] at h
            cases heq : Value.serialize k s with
            | error er => simp only [heq] at h; exact absurd h (by simp)
            | ok sm =>
                simp only [heq] at h
                cases heq2 : Value.serialize v sm with
                | error er => simp only [heq2] at h; exact absurd h (by simp)
                | ok sm2 =>
                    simp only [heq2] at h
                    obtain ⟨t, s1, hts, htsk, hte⟩ := serialize_head heq
                    subst hts
                    have hck := serialize_consumes heq
                    have hcv := serialize_consumes heq2
                    have hcl := serializeEntries_consumes h
                    subst hs2
                    simp only [List.length_cons] at hf hck hcv hcl
                    obtain ⟨g, rfl⟩ : ∃ g, f = g + 1 := ⟨f - 1, by omega⟩
                    have hne : t ≠ e.token := by
                      intro hh
                      rw [hh, EndToken.token_ender] at hte
                      cases hte
                    have h1 := Value.msize_pos k
                    have h2 := Value.msize_pos v
                    have h3 := Value.msizeEntries_pos ps
                    simp only [Value.msizeEntries] at hsz
                    have ihk := ihV k (t :: s1) sm (by omega) heq g
                      (by simp; omega)
                    have ihv := ihV v sm sm2 (by omega) heq2 g (by omega)
                    have ihl := ihP ps sm2 (e.token :: r2) (by omega) h e r2 rfl
                      (len.map (fun m => m - 1)) g (by simp; omega)
                    simp [deMapElements, peek_token_opt, List.find?, htsk, hne,
                          ihk, ihv, ihl]

/-- Round-trip corollary for a single value. -/
theorem ser_de (v : Value) (s rest : List Token)
    (h : Value.serialize v s = .ok rest) (f : Nat)
    (hf : s.length + 1 ≤ f + rest.length) :
    deserialize_any f s = .done v rest :=
  (ser_de_master v.msize).1 v s rest (Nat.le_refl _) h f hf

/-- Round-trip corollary for the element loop. -/
theorem ser_de_elements (vs : List Value) (s : List Token) (e : EndToken)
    (r2 : List Token) (h : Value.serializeElements vs s = .ok (e.token :: r2))
    (len : Option Nat) (f : Nat) (hf : s.length + 2 ≤ f + r2.length + 1) :
    deSeqElements f len e s = .done vs (e.token :: r2) :=
  (ser_de_master (Value.msizeList vs)).2.1 vs s (e.token :: r2) (Nat.le_refl _) h
    e r2 rfl len f (by simp; omega)

/-- Round-trip corollary for the entry loop. -/
theorem ser_de_entries (ps : List (Value × Value)) (s : List Token) (e : EndToken)
    (r2 : List Token) (h : Value.serializeEntries ps s = .ok (e.token :: r2))
    (len : Option Nat) (f : Nat) (hf : s.length + 2 ≤ f + r2.length + 1) :
    deMapElements f len e s = .done ps (e.token :: r2) :=
  (ser_de_master (Value.msizeEntries ps)).2.2 ps s (e.token :: r2) (Nat.le_refl _) h
    e r2 rfl len f (by simp; omega)

/-- The canonical token script of a value is accepted by the encode-verifier,
whatever follows it. -/
theorem tokens_accepted_master : ∀ n : Nat,
    (∀ v : Value, v.msize ≤ n → ∀ r : List Token,
      Value.serialize v (v.tokens ++ r) = .ok r) ∧
    (∀ vs : List Value, Value.msizeList vs ≤ n → ∀ r : List Token,
      Value.serializeElements vs (Value.tokensElements vs ++ r) = .ok r) ∧
    (∀ ps : List (Value × Value), Value.msizeEntries ps ≤ n → ∀ r : List Token,
      Value.serializeEntries ps (Value.tokensEntries ps ++ r) = .ok r) := by
  intro n
  induction n with
  | zero =>
      refine ⟨fun v h => absurd h (by have := Value.msize_pos v; omega),
              fun vs h => absurd h (by have := Value.msizeList_pos vs; omega),
              fun ps h => absurd h (by have := Value.msizeEntries_pos ps; omega)⟩
  | succ n ih =>
      obtain ⟨ihV, ihL, ihP⟩ := ih
      refine ⟨?_, ?_, ?_⟩
      · intro v hsz r
        cases v with
        | bool b =>
            simp [Value.tokens, Value.serialize, assert_next_token_ser,
                  Serializer.next_token]
        | u8 m =>
            simp [Value.tokens, Value.serialize, assert_next_token_ser,
                  Serializer.next_token]
        | u16 m =>
            simp [Value.tokens, Value.serialize, assert_next_token_ser,
                  Serializer.next_token]
        | u32 m =>
            simp [Value.tokens, Value.serialize, assert_next_token_ser,
                  Serializer.next_token]
        | u64 m =>
            simp [Value.tokens, Value.serialize, assert_next_token_ser,
                  Serializer.next_token]
        | str v =>
            simp [Value.tokens, Value.serialize, serialize_str,
                  assert_next_token_ser, Serializer.next_token]
        | bytes v =>
            simp [Value.tokens, Value.serialize, serialize_bytes,
                  assert_next_token_ser, Serializer.next_token]
        | unit =>
            simp [Value.tokens, Value.serialize, assert_next_token_ser,
                  Serializer.next_token]
        | none =>
            simp [Value.tokens, Value.serialize, assert_next_token_ser,
                  Serializer.next_token]
        | some v =>
            have ihv := ihV v (by simp [Value.msize] at hsz; omega) r
            simp [Value.tokens, Value.serialize, assert_next_token_ser,
                  Serializer.next_token, ihv]
        | seq vs =>
            have ihl := ihL vs (by simp [Value.msize] at hsz; omega)
              (Token.seqEnd :: r)
            simp only [Value.tokens, Value.serialize, List.cons_append,
                       List.append_assoc, List.singleton_append]
            simp [assert_next_token_ser, Serializer.next_token, ihl]
        | map ps =>
            have ihl := ihP ps (by simp [Value.msize] at hsz; omega)
              (Token.mapEnd :: r)
            simp only [Value.tokens, Value.serialize, List.cons_append,
                       List.append_assoc, List.singleton_append]
            simp [assert_next_token_ser, Serializer.next_token, ihl]
      · intro vs hsz r
        cases vs with
        | nil => simp [Value.tokensElements, Value.serializeElements]
        | cons v vs =>
            have h1 := Value.msize_pos v
            have h2 := Value.msizeList_pos vs
            simp only [Value.msizeList] at hsz
            have ihv := ihV v (by omega) (Value.tokensElements vs ++ r)
            have ihl := ihL vs (by omega) r
            simp [Value.tokensElements, Value.serializeElements,
                  List.append_assoc, ihv, ihl]
      · intro ps hsz r
        cases ps with
        | nil => simp [Value.tokensEntries, Value.serializeEntries]
        | cons p ps =>
            rcases p with ⟨k, v⟩
            have h1 := Value.msize_pos k
            have h2 := Value.msize_pos v
            have h3 := Value.msizeEntries_pos ps
            simp only [Value.msizeEntries] at hsz
            have ihk := ihV k (by omega)
              (v.tokens ++ (Value.tokensEntries ps ++ r))
            have ihv := ihV v (by omega) (Value.tokensEntries ps ++ r)
            have ihl := ihP ps (by omega) r
            simp [Value.tokensEntries, Value.serializeEntries,
                  List.append_assoc, ihk, ihv, ihl]

/-- Canonical-acceptance corollary for a single value. -/
theorem tokens_accepted (v : Value) (r : List Token) :
    Value.serialize v (v.tokens ++ r) = .ok r :=
  (tokens_accepted_master v.msize).1 v (Nat.le_refl _) r

/-- Canonical-acceptance corollary for element lists. -/
theorem tokens_accepted_elements (vs : List Value) (r : List Token) :
    Value.serializeElements vs (Value.tokensElements vs ++ r) = .ok r :=
  (tokens_accepted_master (Value.msizeList vs)).2.1 vs (Nat.le_refl _) r

/-- Canonical-acceptance corollary for entry lists. -/
theorem tokens_accepted_entries (ps : List (Value × Value)) (r : List Token) :
    Value.serializeEntries ps (Value.tokensEntries ps ++ r) = .ok r :=
  (tokens_accepted_master (Value.msizeEntries ps)).2.2 ps (Nat.le_refl _) r

/-- Acceptance of a script only constrains its consumed prefix: appending
extra tokens after an accepted script leaves them at the cursor end. -/
theorem serialize_append_master : ∀ n : Nat,
    (∀ v : Value, ∀ s rest u : List Token, v.msize ≤ n →
      Value.serialize v s = .ok rest →
      Value.serialize v (s ++ u) = .ok (rest ++ u)) ∧
    (∀ vs : List Value, ∀ s rest u : List Token, Value.msizeList vs ≤ n →
      Value.serializeElements vs s = .ok rest →
      Value.serializeElements vs (s ++ u) = .ok (rest ++ u)) ∧
    (∀ ps : List (Value × Value), ∀ s rest u : List Token,
      Value.msizeEntries ps ≤ n →
      Value.serializeEntries ps s = .ok rest →
      Value.serializeEntries ps (s ++ u) = .ok (rest ++ u)) := by
  intro n
  induction n with
  | zero =>
      refine ⟨fun v s rest u h _ => absurd h (by have := Value.msize_pos v; omega),
              fun vs s rest u h _ => absurd h (by have := Value.msizeList_pos vs; omega),
              fun ps s rest u h _ => absurd h (by have := Value.msizeEntries_pos ps; omega)⟩
  | succ n ih =>
      obtain ⟨ihV, ihL, ihP⟩ := ih
      refine ⟨?_, ?_, ?_⟩
      · intro v s rest u hsz h
        cases v with
        | bool b =>
            simp only [Value.serialize] at h ⊢
            rw [assert_next_token_ser_ok_iff.mp h]
            simp [assert_next_token_ser, Serializer.next_token]
        | u8 m =>
            simp only [Value.serialize] at h ⊢
            rw [assert_next_token_ser_ok_iff.mp h]
            simp [assert_next_token_ser, Serializer.next_token]
        | u16 m =>
            simp only [Value.serialize] at h ⊢
            rw [assert_next_token_ser_ok_iff.mp h]
            simp [assert_next_token_ser, Serializer.next_token]
        | u32 m =>
            simp only [Value.serialize] at h ⊢
            rw [assert_next_token_ser_ok_iff.mp h]
            simp [assert_next_token_ser, Serializer.next_token]
        | u64 m =>
            simp only [Value.serialize] at h ⊢
            rw [assert_next_token_ser_ok_iff.mp h]
            simp [assert_next_token_ser, Serializer.next_token]
        | unit =>
            simp only [Value.serialize] at h ⊢
            rw [assert_next_token_ser_ok_iff.mp h]
            simp [assert_next_token_ser, Serializer.next_token]
        | none =>
            simp only [Value.serialize] at h ⊢
            rw [assert_next_token_ser_ok_iff.mp h]
            simp [assert_next_token_ser, Serializer.next_token]
        | str v =>
            simp only [Value.serialize, serialize_str] at h ⊢
            split at h <;>
              (rw [assert_next_token_ser_ok_iff.mp h]
               simp [assert_next_token_ser, Serializer.next_token])
        | bytes v =>
            simp only [Value.serialize, serialize_bytes] at h ⊢
            split at h <;>
              (rw [assert_next_token_ser_ok_iff.mp h]
               simp [assert_next_token_ser, Serializer.next_token])
        | some v =>
            simp only [Value.serialize] at h ⊢
            cases heq : assert_next_token_ser Token.some s with
            | error e => simp only [heq] at h; exact absurd h (by simp)
            | ok s1 =>
                simp only [heq] at h
                rw [assert_next_token_ser_ok_iff] at heq
                subst heq
                have ihv := ihV v s1 rest u (by simp [Value.msize] at hsz; omega) h
                simp [assert_next_token_ser, Serializer.next_token, ihv]
        | seq vs =>
            simp only [Value.serialize] at h ⊢
            cases heq : assert_next_token_ser (Token.seq (Option.some vs.length)) s with
            | error e => simp only [heq] at h; exact absurd h (by simp)
            | ok s1 =>
                simp only [heq] at h
                rw [assert_next_token_ser_ok_iff] at heq
                subst heq
                cases heq2 : Value.serializeElements vs s1 with
                | error e => simp only [heq2] at h; exact absurd h (by simp)
                | ok s2 =>
                    simp only [heq2] at h
                    have hs2 := assert_next_token_ser_ok_iff.mp h
                    subst hs2
                    have ihl := ihL vs s1 (Token.seqEnd :: rest) u
                      (by simp [Value.msize] at hsz; omega) heq2
                    simp [assert_next_token_ser, Serializer.next_token, ihl]
        | map ps =>
            simp only [Value.serialize] at h ⊢
            cases heq : assert_next_token_ser (Token.map (Option.some ps.length)) s with
            | error e => simp only [heq] at h; exact absurd h (by simp)
            | ok s1 =>
                simp only [heq] at h
                rw [assert_next_token_ser_ok_iff] at heq
                subst heq
                cases heq2 : Value.serializeEntries ps s1 with
                | error e => simp only [heq2] at h; exact absurd h (by simp)
                | ok s2 =>
                    simp only [heq2] at h
                    have hs2 := assert_next_token_ser_ok_iff.mp h
                    subst hs2
                    have ihl := ihP ps s1 (Token.mapEnd :: rest) u
                      (by simp [Value.msize] at hsz; omega) heq2
                    simp [assert_next_token_ser, Serializer.next_token, ihl]
      · intro vs s rest u hsz h
        cases vs with
        | nil =>
            simp only [Value.serializeElements] at h
            cases h
            simp [Value.serializeElements]
        | cons v vs =>
            simp only [Value.serializeElements] at h ⊢
            cases heq : Value.serialize v s with
            | error er => simp only [heq] at h; exact absurd h (by simp)
            | ok sm =>
                simp only [heq] at h
                have h1 := Value.msize_pos v
                have h2 := Value.msizeList_pos vs
                simp only [Value.msizeList] at hsz
                have ihv := ihV v s sm u (by omega) heq
                have ihl := ihL vs sm rest u (by omega) h
                simp [ihv, ihl]
      · intro ps s rest u hsz h
        cases ps with
        | nil =>
            simp only [Value.serializeEntries] at h
            cases h
            simp [Value.serializeEntries]
        | cons p ps =>
            rcases p with ⟨k, v⟩
            simp only [Value.serializeEntries] at h ⊢
            cases heq : Value.serialize k s with
            | error er => simp only [heq] at h; exact absurd h (by simp)
            | ok sm =>
                simp only [heq] at h
                cases heq2 : Value.serialize v sm with
                | error er => simp only [heq2] at h; exact absurd h (by simp)
                | ok sm2 =>
                    simp only [heq2] at h
                    have h1 := Value.msize_pos k
                    have h2 := Value.msize_pos v
                    have h3 := Value.msizeEntries_pos ps
                    simp only [Value.msizeEntries] at hsz
                    have ihk := ihV k s sm u (by omega) heq
                    have ihv := ihV v sm sm2 u (by omega) heq2
                    have ihl := ihP ps sm2 rest u (by omega) h
                    simp [ihk, ihv, ihl]

/-- Append corollary for a single value. -/
theorem serialize_append (v : Value) (s rest u : List Token)
    (h : Value.serialize v s = .ok rest) :
    Value.serialize v (s ++ u) = .ok (rest ++ u) :=
  (serialize_append_master v.msize).1 v s rest u (Nat.le_refl _) h

end RoundTrip

section Claims

/-- Claim C1 (confirmed).  Round-trip: for any value v and token script s such
that encode-verification of v against s succeeds (assert_ser_tokens passes),
decode-driving s via assert_de_tokens reconstructs a value equal to v, and
re-running the same script through the in-place decode variant
(deserialize_in_place on a fresh cursor) also yields a value equal to v: both
checks are exactly what a successful assert_de_tokens run certifies, so the
theorem states that whenever assert_ser_tokens accepts, assert_de_tokens
accepts as well. -/
theorem C1_round_trip (v : Value) (s : List Token)
    (h : assert_ser_tokens v s = .ok ()) : assert_de_tokens v s = .ok () := by
  unfold assert_ser_tokens at h
  cases heq : Value.serialize v s with
  | error e => rw [heq] at h; exact absurd h (by simp)
  | ok rest =>
      rw [heq] at h
      have hrest : rest = [] := by
        by_cases hr : remaining rest > 0
        · simp [hr] at h
        · have h0 : remaining rest = 0 := Nat.eq_zero_of_not_pos hr
          exact List.eq_nil_of_length_eq_zero h0
      subst hrest
      have hde := ser_de v s [] heq (defaultFuel s)
        (by simp [defaultFuel, remaining]; omega)
      simp [assert_de_tokens, deserialize_in_place, hde, remaining]

/-- Witness for C1 at a concrete value and script. -/
theorem C1_round_trip_witness :
    assert_de_tokens (Value.seq [Value.u8 1, Value.str "a"])
      [Token.seq (Option.some 2), Token.u8 1, Token.str "a", Token.seqEnd]
      = .ok () :=
  C1_round_trip (Value.seq [Value.u8 1, Value.str "a"])
    [Token.seq (Option.some 2), Token.u8 1, Token.str "a", Token.seqEnd]
    (by decide)

/-- Claim C2 counterexample.  The claim asserts that value.serialize returning
Ok (or T::deserialize returning Ok with the expected value) already implies
remaining() is zero.  On the concrete unit value with script consisting of
Unit followed by one extra trailing Unit, serialization returns Ok with one
token remaining and deserialization returns Ok with the expected value and one
token remaining; only the outer checks of the entry points turn this into the
remaining-tokens panic. -/
theorem C2_counterexample :
    Value.serialize Value.unit [Token.unit, Token.unit] = .ok [Token.unit] ∧
    deserialize_any (defaultFuel [Token.unit, Token.unit])
      [Token.unit, Token.unit] = .done Value.unit [Token.unit] ∧
    remaining [Token.unit] ≠ 0 ∧
    assert_ser_tokens Value.unit [Token.unit, Token.unit]
      = .error (.remainingTokens 1) ∧
    assert_de_tokens Value.unit [Token.unit, Token.unit]
      = .error (.remainingTokens 1) := by
  decide

/-- Claim C2 (corrected).  Exact consumption: a successful run of an assert
entry point guarantees zero remaining tokens because the entry point itself
performs the exhaustion check (first two parts); a bare successful
serialize or deserialize pass does not guarantee it, and a script with one
extra trailing token beyond a complete value still passes the value portion
but fails the outer exhaustion check with the remaining-tokens panic
reporting one leftover token (last two parts). -/
theorem C2_exact_consumption (v : Value) (s : List Token) (t : Token) :
    (assert_ser_tokens v s = .ok () → Value.serialize v s = .ok []) ∧
    (assert_de_tokens v s = .ok () →
      deserialize_any (defaultFuel s) s = .done v []) ∧
    (Value.serialize v s = .ok [] →
      assert_ser_tokens v (s ++ [t]) = .error (.remainingTokens 1)) ∧
    (Value.serialize v s = .ok [] →
      assert_de_tokens v (s ++ [t]) = .error (.remainingTokens 1)) := by
  refine ⟨?_, ?_, ?_, ?_⟩
  · intro h
    unfold assert_ser_tokens at h
    cases heq : Value.serialize v s with
    | error e => rw [heq] at h; exact absurd h (by simp)
    | ok rest =>
        rw [heq] at h
        by_cases hr : remaining rest > 0
        · simp [hr] at h
        · have h0 : remaining rest = 0 := Nat.eq_zero_of_not_pos hr
          simp [List.eq_nil_of_length_eq_zero h0]
  · intro h
    unfold assert_de_tokens at h
    cases heq : deserialize_any (defaultFuel s) s with
    | out => rw [heq] at h; exact absurd h (by simp)
    | fail e => rw [heq] at h; exact absurd h (by simp)
    | done w rest =>
        rw [heq] at h
        by_cases hw : w = v
        · subst hw
          simp only [if_pos rfl] at h
          by_cases hr : remaining rest > 0
          · simp [hr] at h
          · have h0 : remaining rest = 0 := Nat.eq_zero_of_not_pos hr
            simp [List.eq_nil_of_length_eq_zero h0]
        · simp [hw] at h
  · intro h
    have happ := serialize_append v s [] [t] h
    simp only [List.nil_append] at happ
    simp [assert_ser_tokens, happ, remaining]
  · intro h
    have happ := serialize_append v s [] [t] h
    simp only [List.nil_append] at happ
    have hde := ser_de v (s ++ [t]) [t] happ (defaultFuel (s ++ [t]))
      (by simp [defaultFuel, remaining]; omega)
    simp [assert_de_tokens, hde, remaining]

/-- Witness for C2 at a concrete value, script and trailing token. -/
theorem C2_exact_consumption_witness :
    assert_ser_tokens Value.unit [Token.unit, Token.u8 0]
      = .error (.remainingTokens 1) ∧
    assert_de_tokens Value.unit [Token.unit, Token.u8 0]
      = .error (.remainingTokens 1) :=
  ⟨(C2_exact_consumption Value.unit [Token.unit] (Token.u8 0)).2.2.1 (by decide),
   (C2_exact_consumption Value.unit [Token.unit] (Token.u8 0)).2.2.2 (by decide)⟩

end Claims

section DeConsumption

/-- Consumption master: a completed decode leaves a cursor that is a strict
suffix of the input cursor (strict for a value decode, monotone for the
element and entry loops, which may stop immediately at the owed closer). -/
theorem de_consumes_master : ∀ f : Nat,
    (∀ s : List Token, ∀ a : Value, ∀ r : List Token,
      deserialize_any f s = .done a r → r.length < s.length ∧ r <:+ s) ∧
    (∀ len : Option Nat, ∀ e : EndToken, ∀ s : List Token,
      ∀ vs : List Value, ∀ r : List Token,
      deSeqElements f len e s = .done vs r → r.length ≤ s.length ∧ r <:+ s) ∧
    (∀ len : Option Nat, ∀ e : EndToken, ∀ s : List Token,
      ∀ ps : List (Value × Value), ∀ r : List Token,
      deMapElements f len e s = .done ps r → r.length ≤ s.length ∧ r <:+ s) := by
  intro f
  induction f with
  | zero =>
      refine ⟨fun s a r h => absurd h (by simp [deserialize_any]),
              fun len e s vs r h => absurd h (by simp [deSeqElements]),
              fun len e s ps r h => absurd h (by simp [deMapElements])⟩
  | succ f ih =>
      obtain ⟨ihA, ihS, ihM⟩ := ih
      refine ⟨?_, ?_, ?_⟩
      · intro s a r h
        simp only [deserialize_any] at h
        cases hn : next_token_opt s with
        | mk o s1 =>
            simp only [hn] at h
            cases o with
            | none => exact absurd h (by simp)
            | some t =>
                have hcons := next_token_opt_consumes hn
                cases t with
                | bool v => cases h; exact hcons
                | u8 v => cases h; exact hcons
                | u16 v => cases h; exact hcons
                | u32 v => cases h; exact hcons
                | u64 v => cases h; exact hcons
                | str v => cases h; exact hcons
                | borrowedStr v => cases h; exact hcons
                | string v => cases h; exact hcons
                | bytes v => cases h; exact hcons
                | borrowedBytes v => cases h; exact hcons
                | byteBuf v => cases h; exact hcons
                | none => cases h; exact hcons
                | unit => cases h; exact hcons
                | unitStruct nm => cases h; exact hcons
                | unitVariant nm vr => cases h; exact hcons
                | i8 v => exact absurd h (by simp)
                | i16 v => exact absurd h (by simp)
                | i32 v => exact absurd h (by simp)
                | i64 v => exact absurd h (by simp)
                | i128 v => exact absurd h (by simp)
                | u128 v => exact absurd h (by simp)
                | f32 v => exact absurd h (by simp)
                | f64 v => exact absurd h (by simp)
                | char v => exact absurd h (by simp)
                | seqEnd => exact absurd h (by simp)
                | tupleEnd => exact absurd h (by simp)
                | tupleStructEnd => exact absurd h (by simp)
                | mapEnd => exact absurd h (by simp)
                | structEnd => exact absurd h (by simp)
                | tupleVariantEnd => exact absurd h (by simp)
                | structVariantEnd => exact absurd h (by simp)
                | skipStructField nm => exact absurd h (by simp)
                | some =>
                    cases hd : deserialize_any f s1 with
                    | out => simp only [hd] at h; exact absurd h (by simp)
                    | fail e => simp only [hd] at h; exact absurd h (by simp)
                    | done v r2 =>
                        simp only [hd] at h
                        cases h
                        have hi := ihA _ _ _ hd
                        exact ⟨by omega, hi.2.trans hcons.2⟩
                | newtypeStruct nm =>
                    have hi := ihA s1 a r h
                    exact ⟨by omega, hi.2.trans hcons.2⟩
                | seq len =>
                    cases hd : deSeqElements f len EndToken.seq s1 with
                    | out => simp only [hd] at h; exact absurd h (by simp)
                    | fail e => simp only [hd] at h; exact absurd h (by simp)
                    | done vs s2 =>
                        simp only [hd] at h
                        cases ha : assert_next_token Token.seqEnd s2 with
                        | error e => simp only [ha] at h; exact absurd h (by simp)
                        | ok s3 =>
                            simp only [ha] at h
                            cases h
                            have h1 := ihS _ _ _ _ _ hd
                            have h2 := assert_next_token_ok_consumes ha
                            exact ⟨by omega, (h2.2.trans h1.2).trans hcons.2⟩
                | tuple len =>
                    cases hd : deSeqElements f (Option.some len) EndToken.tuple s1 with
                    | out => simp only [hd] at h; exact absurd h (by simp)
                    | fail e => simp only [hd] at h; exact absurd h (by simp)
                    | done vs s2 =>
                        simp only [hd] at h
                        cases ha : assert_next_token Token.tupleEnd s2 with
                        | error e => simp only [ha] at h; exact absurd h (by simp)
                        | ok s3 =>
                            simp only [ha] at h
                            cases h
                            have h1 := ihS _ _ _ _ _ hd
                            have h2 := assert_next_token_ok_consumes ha
                            exact ⟨by omega, (h2.2.trans h1.2).trans hcons.2⟩
                | tupleStruct nm len =>
                    cases hd : deSeqElements f (Option.some len) EndToken.tupleStruct s1 with
                    | out => simp only [hd] at h; exact absurd h (by simp)
                    | fail e => simp only [hd] at h; exact absurd h (by simp)
                    | done vs s2 =>
                        simp only [hd] at h
                        cases ha : assert_next_token Token.tupleStructEnd s2 with
                        | error e => simp only [ha] at h; exact absurd h (by simp)
                        | ok s3 =>
                            simp only [ha] at h
                            cases h
                            have h1 := ihS _ _ _ _ _ hd
                            have h2 := assert_next_token_ok_consumes ha
                            exact ⟨by omega, (h2.2.trans h1.2).trans hcons.2⟩
                | map len =>
                    cases hd : deMapElements f len EndToken.map s1 with
                    | out => simp only [hd] at h; exact absurd h (by simp)
                    | fail e => simp only [hd] at h; exact absurd h (by simp)
                    | done ps s2 =>
                        simp only [hd] at h
                        cases ha : assert_next_token Token.mapEnd s2 with
                        | error e => simp only [ha] at h; exact absurd h (by simp)
                        | ok s3 =>
                            simp only [ha] at h
                            cases h
                            have h1 := ihM _ _ _ _ _ hd
                            have h2 := assert_next_token_ok_consumes ha
                            exact ⟨by omega, (h2.2.trans h1.2).trans hcons.2⟩
                | struct nm len =>
                    cases hd : deMapElements f (Option.some len) EndToken.struct s1 with
                    | out => simp only [hd] at h; exact absurd h (by simp)
                    | fail e => simp only [hd] at h; exact absurd h (by simp)
                    | done ps s2 =>
                        simp only [hd] at h
                        cases ha : assert_next_token Token.structEnd s2 with
                        | error e => simp only [ha] at h; exact absurd h (by simp)
                        | ok s3 =>
                            simp only [ha] at h
                            cases h
                            have h1 := ihM _ _ _ _ _ hd
                            have h2 := assert_next_token_ok_consumes ha
                            exact ⟨by omega, (h2.2.trans h1.2).trans hcons.2⟩
                | newtypeVariant nm vr =>
                    cases hd : deserialize_any f s1 with
                    | out => simp only [hd] at h; exact absurd h (by simp)
                    | fail e => simp only [hd] at h; exact absurd h (by simp)
                    | done v r2 =>
                        simp only [hd] at h
                        cases h
                        have hi := ihA _ _ _ hd
                        exact ⟨by omega, hi.2.trans hcons.2⟩
                | tupleVariant nm vr len =>
                    cases hd : deSeqElements f Option.none EndToken.tupleVariant s1 with
                    | out => simp only [hd] at h; exact absurd h (by simp)
                    | fail e => simp only [hd] at h; exact absurd h (by simp)
                    | done vs s2 =>
                        simp only [hd] at h
                        cases ha : assert_next_token Token.tupleVariantEnd s2 with
                        | error e => simp only [ha] at h; exact absurd h (by simp)
                        | ok s3 =>
                            simp only [ha] at h
                            cases h
                            have h1 := ihS _ _ _ _ _ hd
                            have h2 := assert_next_token_ok_consumes ha
                            exact ⟨by omega, (h2.2.trans h1.2).trans hcons.2⟩
                | structVariant nm vr len =>
                    cases hd : deMapElements f Option.none EndToken.structVariant s1 with
                    | out => simp only [hd] at h; exact absurd h (by simp)
                    | fail e => simp only [hd] at h; exact absurd h (by simp)
                    | done ps s2 =>
                        simp only [hd] at h
                        cases ha : assert_next_token Token.structVariantEnd s2 with
                        | error e => simp only [ha] at h; exact absurd h (by simp)
                        | ok s3 =>
                            simp only [ha] at h
                            cases h
                            have h1 := ihM _ _ _ _ _ hd
                            have h2 := assert_next_token_ok_consumes ha
                            exact ⟨by omega, (h2.2.trans h1.2).trans hcons.2⟩
                | enum nm =>
                    cases hn2 : next_token_opt s1 with
                    | mk o2 s2 =>
                        simp only [hn2] at h
                        cases o2 with
                        | none => exact absurd h (by simp)
                        | some vt =>
                            have hcons2 := next_token_opt_consumes hn2
                            cases hp : peek_token_opt s2 with
                            | none => simp only [hp] at h; exact absurd h (by simp)
                            | some nx =>
                                simp only [hp] at h
                                by_cases hu : nx = Token.unit
                                · simp only [hu, if_pos rfl] at h
                                  cases ht : enumUnitTag vt with
                                  | error e => simp only [ht] at h; exact absurd h (by simp)
                                  | ok v =>
                                      simp only [ht] at h
                                      cases hn3 : next_token_opt s2 with
                                      | mk o3 s3 =>
                                          simp only [hn3] at h
                                          cases o3 with
                                          | none => exact absurd h (by simp)
                                          | some t3 =>
                                              have hcons3 := next_token_opt_consumes hn3
                                              cases h
                                              refine ⟨by omega, ?_⟩
                                              exact (hcons3.2.trans hcons2.2).trans hcons.2
                                · simp only [if_neg hu] at h
                                  cases hk : enumMapNextKey vt with
                                  | error e => simp only [hk] at h; exact absurd h (by simp)
                                  | ok k =>
                                      simp only [hk] at h
                                      cases hd : deserialize_any f s2 with
                                      | out => simp only [hd] at h; exact absurd h (by simp)
                                      | fail e => simp only [hd] at h; exact absurd h (by simp)
                                      | done v r2 =>
                                          simp only [hd] at h
                                          cases h
                                          have hi := ihA _ _ _ hd
                                          refine ⟨by omega, ?_⟩
                                          exact (hi.2.trans hcons2.2).trans hcons.2
      · intro len e s vs r h
        simp only [deSeqElements] at h
        by_cases hp : peek_token_opt s = Option.some e.token
        · simp only [hp, if_pos rfl] at h
          cases h
          exact ⟨Nat.le_refl _, List.suffix_refl _⟩
        · simp only [if_neg hp] at h
          cases hd : deserialize_any f s with
          | out => simp only [hd] at h; exact absurd h (by simp)
          | fail er => simp only [hd] at h; exact absurd h (by simp)
          | done v s1 =>
              simp only [hd] at h
              cases hr : deSeqElements f (len.map (fun n => n - 1)) e s1 with
              | out => simp only [hr] at h; exact absurd h (by simp)
              | fail er => simp only [hr] at h; exact absurd h (by simp)
              | done vs2 s2 =>
                  simp only [hr] at h
                  cases h
                  have h1 := ihA _ _ _ hd
                  have h2 := ihS _ _ _ _ _ hr
                  exact ⟨by omega, h2.2.trans h1.2⟩
      · intro len e s ps r h
        simp only [deMapElements] at h
        by_cases hp : peek_token_opt s = Option.some e.token
        · simp only [hp, if_pos rfl] at h
          cases h
          exact ⟨Nat.le_refl _, List.suffix_refl _⟩
        · simp only [if_neg hp] at h
          cases hd : deserialize_any f s with
          | out => simp only [hd] at h; exact absurd h (by simp)
          | fail er => simp only [hd] at h; exact absurd h (by simp)
          | done k s1 =>
              simp only [hd] at h
              cases hd2 : deserialize_any f s1 with
              | out => simp only [hd2] at h; exact absurd h (by simp)
              | fail er => simp only [hd2] at h; exact absurd h (by simp)
              | done v s2 =>
                  simp only [hd2] at h
                  cases hr : deMapElements f (len.map (fun n => n - 1)) e s2 with
                  | out => simp only [hr] at h; exact absurd h (by simp)
                  | fail er => simp only [hr] at h; exact absurd h (by simp)
                  | done ps2 s3 =>
                      simp only [hr] at h
                      cases h
                      have h1 := ihA _ _ _ hd
                      have h2 := ihA _ _ _ hd2
                      have h3 := ihM _ _ _ _ _ hr
                      exact ⟨by omega, (h3.2.trans h2.2).trans h1.2⟩

/-- Consumption corollary for deserialize_any: each completed decode strictly
shrinks the cursor, onto a suffix (tokens are consumed at most once, in
order). -/
theorem deserialize_any_consumes (f : Nat) (s : List Token) (a : Value)
    (r : List Token) (h : deserialize_any f s = .done a r) :
    r.length < s.length ∧ r <:+ s :=
  (de_consumes_master f).1 s a r h

end DeConsumption

section DeAdequacy

/-- Adequacy master: fuel linear in the cursor length is always enough, so a
decode over a finite script always reaches a definite done or fail result
(this is the termination of the driver in the fuel embedding). -/
theorem de_adequate_master : ∀ f : Nat,
    (∀ s : List Token, 2 * s.length + 1 ≤ f → deserialize_any f s ≠ .out) ∧
    (∀ len : Option Nat, ∀ e : EndToken, ∀ s : List Token,
      2 * s.length + 2 ≤ f → deSeqElements f len e s ≠ .out) ∧
    (∀ len : Option Nat, ∀ e : EndToken, ∀ s : List Token,
      2 * s.length + 2 ≤ f → deMapElements f len e s ≠ .out) := by
  intro f
  induction f with
  | zero =>
      refine ⟨fun s h => absurd h (by omega),
              fun len e s h => absurd h (by omega),
              fun len e s h => absurd h (by omega)⟩
  | succ f ih =>
      obtain ⟨ihA, ihS, ihM⟩ := ih
      refine ⟨?_, ?_, ?_⟩
      · intro s hf
        simp only [deserialize_any]
        cases hn : next_token_opt s with
        | mk o s1 =>
            cases o with
            | none => simp
            | some t =>
                have hlt := (next_token_opt_consumes hn).1
                cases t with
                | bool v => simp
                | u8 v => simp
                | u16 v => simp
                | u32 v => simp
                | u64 v => simp
                | str v => simp
                | borrowedStr v => simp
                | string v => simp
                | bytes v => simp
                | borrowedBytes v => simp
                | byteBuf v => simp
                | none => simp
                | unit => simp
                | unitStruct nm => simp
                | unitVariant nm vr => simp
                | i8 v => simp
                | i16 v => simp
                | i32 v => simp
                | i64 v => simp
                | i128 v => simp
                | u128 v => simp
                | f32 v => simp
                | f64 v => simp
                | char v => simp
                | seqEnd => simp
                | tupleEnd => simp
                | tupleStructEnd => simp
                | mapEnd => simp
                | structEnd => simp
                | tupleVariantEnd => simp
                | structVariantEnd => simp
                | skipStructField nm => simp
                | some =>
                    cases hd : deserialize_any f s1 with
                    | out => exact absurd hd (ihA s1 (by omega))
                    | fail e => simp [hd]
                    | done v r2 => simp [hd]
                | newtypeStruct nm =>
                    cases hd : deserialize_any f s1 with
                    | out => exact absurd hd (ihA s1 (by omega))
                    | fail e => simp [hd]
                    | done v r2 => simp [hd]
                | seq len =>
                    cases hd : deSeqElements f len EndToken.seq s1 with
                    | out => exact absurd hd (ihS len EndToken.seq s1 (by omega))
                    | fail e => simp [hd]
                    | done vs s2 =>
                        cases ha : assert_next_token Token.seqEnd s2 with
                        | ok s3 => simp [hd, ha]
                        | error e => simp [hd, ha]
                | tuple len =>
                    cases hd : deSeqElements f (Option.some len) EndToken.tuple s1 with
                    | out => exact absurd hd (ihS (Option.some len) EndToken.tuple s1 (by omega))
                    | fail e => simp [hd]
                    | done vs s2 =>
                        cases ha : assert_next_token Token.tupleEnd s2 with
                        | ok s3 => simp [hd, ha]
                        | error e => simp [hd, ha]
                | tupleStruct nm len =>
                    cases hd : deSeqElements f (Option.some len) EndToken.tupleStruct s1 with
                    | out => exact absurd hd (ihS (Option.some len) EndToken.tupleStruct s1 (by omega))
                    | fail e => simp [hd]
                    | done vs s2 =>
                        cases ha : assert_next_token Token.tupleStructEnd s2 with
                        | ok s3 => simp [hd, ha]
                        | error e => simp [hd, ha]
                | map len =>
                    cases hd : deMapElements f len EndToken.map s1 with
                    | out => exact absurd hd (ihM len EndToken.map s1 (by omega))
                    | fail e => simp [hd]
                    | done ps s2 =>
                        cases ha : assert_next_token Token.mapEnd s2 with
                        | ok s3 => simp [hd, ha]
                        | error e => simp [hd, ha]
                | struct nm len =>
                    cases hd : deMapElements f (Option.some len) EndToken.struct s1 with
                    | out => exact absurd hd (ihM (Option.some len) EndToken.struct s1 (by omega))
                    | fail e => simp [hd]
                    | done ps s2 =>
                        cases ha : assert_next_token Token.structEnd s2 with
                        | ok s3 => simp [hd, ha]
                        | error e => simp [hd, ha]
                | newtypeVariant nm vr =>
                    cases hd : deserialize_any f s1 with
                    | out => exact absurd hd (ihA s1 (by omega))
                    | fail e => simp [hd]
                    | done v r2 => simp [hd]
                | tupleVariant nm vr len =>
                    cases hd : deSeqElements f Option.none EndToken.tupleVariant s1 with
                    | out => exact absurd hd (ihS Option.none EndToken.tupleVariant s1 (by omega))
                    | fail e => simp [hd]
                    | done vs s2 =>
                        cases ha : assert_next_token Token.tupleVariantEnd s2 with
                        | ok s3 => simp [hd, ha]
                        | error e => simp [hd, ha]
                | structVariant nm vr len =>
                    cases hd : deMapElements f Option.none EndToken.structVariant s1 with
                    | out => exact absurd hd (ihM Option.none EndToken.structVariant s1 (by omega))
                    | fail e => simp [hd]
                    | done ps s2 =>
                        cases ha : assert_next_token Token.structVariantEnd s2 with
                        | ok s3 => simp [hd, ha]
                        | error e => simp [hd, ha]
                | enum nm =>
                    cases hn2 : next_token_opt s1 with
                    | mk o2 s2 =>
                        simp only [hn2]
                        cases o2 with
                        | none => simp
                        | some vt =>
                            have hlt2 := (next_token_opt_consumes hn2).1
                            cases hp : peek_token_opt s2 with
                            | none => simp [hp]
                            | some nx =>
                                by_cases hu : nx = Token.unit
                                · subst hu
                                  cases ht : enumUnitTag vt with
                                  | error e => simp [hp, ht]
                                  | ok v =>
                                      cases hn3 : next_token_opt s2 with
                                      | mk o3 s3 =>
                                          cases o3 with
                                          | none => simp [hp, ht, hn3]
                                          | some t3 => simp [hp, ht, hn3]
                                · cases hk : enumMapNextKey vt with
                                  | error e => simp [hp, hu, hk]
                                  | ok k =>
                                      cases hd : deserialize_any f s2 with
                                      | out => exact absurd hd (ihA s2 (by omega))
                                      | fail e => simp [hp, hu, hk, hd]
                                      | done v r2 => simp [hp, hu, hk, hd]
      · intro len e s hf
        simp only [deSeqElements]
        by_cases hp : peek_token_opt s = Option.some e.token
        · simp [hp]
        · cases hd : deserialize_any f s with
          | out => exact absurd hd (ihA s (by omega))
          | fail er => simp [hp, hd]
          | done v s1 =>
              have hlt := (deserialize_any_consumes f s v s1 hd).1
              cases hr : deSeqElements f (len.map (fun n => n - 1)) e s1 with
              | out => exact absurd hr (ihS (len.map (fun n => n - 1)) e s1 (by omega))
              | fail er => simp [hp, hd, hr]
              | done vs s2 => simp [hp, hd, hr]
      · intro len e s hf
        simp only [deMapElements]
        by_cases hp : peek_token_opt s = Option.some e.token
        · simp [hp]
        · cases hd : deserialize_any f s with
          | out => exact absurd hd (ihA s (by omega))
          | fail er => simp [hp, hd]
          | done k s1 =>
              have hlt := (deserialize_any_consumes f s k s1 hd).1
              cases hd2 : deserialize_any f s1 with
              | out => exact absurd hd2 (ihA s1 (by omega))
              | fail er => simp [hp, hd, hd2]
              | done v s2 =>
                  have hlt2 := (deserialize_any_consumes f s1 v s2 hd2).1
                  cases hr : deMapElements f (len.map (fun n => n - 1)) e s2 with
                  | out => exact absurd hr (ihM (len.map (fun n => n - 1)) e s2 (by omega))
                  | fail er => simp [hp, hd, hd2, hr]
                  | done ps s3 => simp [hp, hd, hd2, hr]

/-- Adequacy corollary at the fuel used by the entry points. -/
theorem deserialize_any_adequate (s : List Token) :
    deserialize_any (defaultFuel s) s ≠ .out :=
  (de_adequate_master (defaultFuel s)).1 s
    (by unfold defaultFuel remaining; omega)

end DeAdequacy

section ClaimsTwo

/-- Claim C3 (confirmed).  Skip-token cursor invariant: for every cursor
state, peek_token_opt and next_token_opt skip every Token::SkipStructField
before returning a token, so a field-skip marker is never returned to the
driven decode callback, and the token peek reports is exactly the token the
consuming step would return (peek itself is a function of the unchanged
cursor, mirroring the cloned iterator of the source, so it never advances
the underlying cursor). -/
theorem C3_skip_invariant (s : List Token) :
    (∀ t : Token, peek_token_opt s = Option.some t → t.isSkipField = false) ∧
    (∀ t : Token, (next_token_opt s).1 = Option.some t → t.isSkipField = false) ∧
    peek_token_opt s = (next_token_opt s).1 := by
  refine ⟨?_, ?_, (next_token_opt_fst_eq_peek s).symm⟩
  · intro t ht
    have := List.find?_some ht
    simpa using this
  · intro t ht
    rw [next_token_opt_fst_eq_peek] at ht
    have := List.find?_some ht
    simpa using this

/-- Witness for C3 on a cursor that starts with a field-skip marker. -/
theorem C3_skip_invariant_witness :
    (Token.u8 1).isSkipField = false ∧
    peek_token_opt [Token.skipStructField "a", Token.u8 1]
      = (next_token_opt [Token.skipStructField "a", Token.u8 1]).1 :=
  ⟨(C3_skip_invariant [Token.skipStructField "a", Token.u8 1]).1 (Token.u8 1)
      (by decide),
   (C3_skip_invariant [Token.skipStructField "a", Token.u8 1]).2.2⟩

/-- Claim C6 counterexample.  The claim bounds the post-failure drain step of
assert_de_tokens_error by one removed token, but the drain is one
next_token_opt call, which also consumes every leading field-skip marker: on
a cursor holding two skip markers before a value token the drain removes
three tokens (remaining drops from 3 to 0).  Such a cursor is reachable:
deserializing a non-boolean from a script starting with a Bool token fails
after consuming only that token, leaving the rest of the script, which may
start with skip markers. -/
theorem C6_counterexample :
    assert_de_tokens_error_drain
      [Token.skipStructField "a", Token.skipStructField "b", Token.u8 0] = [] ∧
    remaining [Token.skipStructField "a", Token.skipStructField "b", Token.u8 0]
      = 3 ∧
    remaining ([] : List Token) = 0 := by
  decide

/-- Claim C6 (corrected).  Post-failure drain bound: the cursor-draining step
of assert_de_tokens_error removes at most one token that is not a field-skip
marker — together with any number of leading field-skip markers — and only
ever advances the cursor onto a suffix of itself. -/
theorem C6_drain_bound (s : List Token) :
    nonSkipCount s ≤ nonSkipCount (assert_de_tokens_error_drain s) + 1 ∧
    assert_de_tokens_error_drain s <:+ s := by
  induction s with
  | nil =>
      constructor
      · simp [nonSkipCount, assert_de_tokens_error_drain, next_token_opt]
      · simp [assert_de_tokens_error_drain, next_token_opt]
  | cons t r ih =>
      by_cases h : t.isSkipField = true
      · have hd : assert_de_tokens_error_drain (t :: r)
            = assert_de_tokens_error_drain r := by
          simp [assert_de_tokens_error_drain, next_token_opt, List.dropWhile, h]
        have hc : nonSkipCount (t :: r) = nonSkipCount r := by
          simp [nonSkipCount, h]
        rw [hd, hc]
        exact ⟨ih.1, ih.2.trans (List.suffix_cons t r)⟩
      · simp only [Bool.not_eq_true] at h
        have hd : assert_de_tokens_error_drain (t :: r) = r := by
          simp [assert_de_tokens_error_drain, next_token_opt, List.dropWhile, h]
        have hc : nonSkipCount (t :: r) = nonSkipCount r + 1 := by
          simp [nonSkipCount, h]
        rw [hd, hc]
        exact ⟨by omega, List.suffix_cons t r⟩

/-- Claim C9 (confirmed).  Termination and single consumption: the serializer
cursor step consumes exactly one token; the deserializer cursor step strictly
decreases the remaining count and leaves a suffix of the script, so each
token is consumed at most once and in order; every completed decode leaves a
strictly shorter suffix; decoding with the entry-point fuel always reaches a
definite result (termination of the decode traversal over the finite
script); and every successful encode traversal strictly consumes the script
(encode traversals are total structurally recursive functions of the finite
value, so they terminate by construction). -/
theorem C9_termination_consumption (s r : List Token) (t : Token) (f : Nat)
    (a v : Value) :
    (Serializer.next_token s = Option.some (t, r) → r.length + 1 = s.length) ∧
    (next_token_opt s = (Option.some t, r) → r.length < s.length ∧ r <:+ s) ∧
    (deserialize_any f s = .done a r → r.length < s.length ∧ r <:+ s) ∧
    deserialize_any (defaultFuel s) s ≠ .out ∧
    (Value.serialize v s = .ok r → r.length < s.length) := by
  refine ⟨?_, ?_, ?_, deserialize_any_adequate s, ?_⟩
  · intro h
    cases s with
    | nil => simp [Serializer.next_token] at h
    | cons t2 r2 =>
        simp only [Serializer.next_token, Option.some.injEq, Prod.mk.injEq] at h
        obtain ⟨h1, h2⟩ := h
        subst h2
        simp
  · exact next_token_opt_consumes
  · exact deserialize_any_consumes f s a r
  · exact serialize_consumes

/-- Witness for C9 at a concrete script and decode result. -/
theorem C9_termination_consumption_witness :
    ([] : List Token).length < [Token.u8 0].length ∧
    ([] : List Token) <:+ [Token.u8 0] :=
  (C9_termination_consumption [Token.u8 0] [] (Token.u8 0)
      (defaultFuel [Token.u8 0]) (Value.u8 0) Value.unit).2.2.1 (by decide)

end ClaimsTwo

section ClaimsThree

/-- Claim C7 (confirmed).  String and bytes ownership-flavor dispatch on
encode: when serialize_str is called with value v, a scripted upcoming
scope-borrowed flavor (BorrowedStr) or owned flavor (String) makes the
verifier assert that specific flavor with payload v, and any other upcoming
script (including the transient flavor itself, a non-string token, or an
exhausted script) makes it assert the transient-borrowed flavor Str with
payload v; the same rule holds for serialize_bytes with BorrowedBytes and
ByteBuf against Bytes. -/
theorem C7_flavor_dispatch (v : String) (bs : List UInt8) (w : String)
    (cs : List UInt8) (s r : List Token) :
    (serialize_str v (Token.borrowedStr w :: r) =
      if w = v then .ok r
      else .error (.mismatch (.borrowedStr w) (.borrowedStr v))) ∧
    (serialize_str v (Token.string w :: r) =
      if w = v then .ok r
      else .error (.mismatch (.string w) (.string v))) ∧
    (serialize_str v (Token.str w :: r) =
      if w = v then .ok r
      else .error (.mismatch (.str w) (.str v))) ∧
    (strDefaultFlavor s = true →
      serialize_str v s = assert_next_token_ser (.str v) s) ∧
    (serialize_bytes bs (Token.borrowedBytes cs :: r) =
      if cs = bs then .ok r
      else .error (.mismatch (.borrowedBytes cs) (.borrowedBytes bs))) ∧
    (serialize_bytes bs (Token.byteBuf cs :: r) =
      if cs = bs then .ok r
      else .error (.mismatch (.byteBuf cs) (.byteBuf bs))) ∧
    (serialize_bytes bs (Token.bytes cs :: r) =
      if cs = bs then .ok r
      else .error (.mismatch (.bytes cs) (.bytes bs))) ∧
    (bytesDefaultFlavor s = true →
      serialize_bytes bs s = assert_next_token_ser (.bytes bs) s) := by
  refine ⟨?_, ?_, ?_, ?_, ?_, ?_, ?_, ?_⟩
  · by_cases hw : w = v <;>
      simp [serialize_str, assert_next_token_ser, Serializer.next_token, hw]
  · by_cases hw : w = v <;>
      simp [serialize_str, assert_next_token_ser, Serializer.next_token, hw]
  · by_cases hw : w = v <;>
      simp [serialize_str, assert_next_token_ser, Serializer.next_token, hw]
  · intro hd
    unfold serialize_str
    split <;> simp_all [strDefaultFlavor]
  · by_cases hw : cs = bs <;>
      simp [serialize_bytes, assert_next_token_ser, Serializer.next_token, hw]
  · by_cases hw : cs = bs <;>
      simp [serialize_bytes, assert_next_token_ser, Serializer.next_token, hw]
  · by_cases hw : cs = bs <;>
      simp [serialize_bytes, assert_next_token_ser, Serializer.next_token, hw]
  · intro hd
    unfold serialize_bytes
    split <;> simp_all [bytesDefaultFlavor]

/-- Witness for C7 on concrete flavored scripts. -/
theorem C7_flavor_dispatch_witness :
    serialize_str "a" [Token.u8 7] = assert_next_token_ser (.str "a") [Token.u8 7] :=
  (C7_flavor_dispatch "a" [] "a" [] [Token.u8 7] []).2.2.2.1 (by decide)

/-- Claim C8 (confirmed).  Generic variant tag resolution: after the Enum
opener the driver consumes the tag token and produces the tag as the decoded
value of that token.  In the unit-payload form every string flavor, every
bytes flavor and the unsigned widths u8 through u64 are supported, and any
other tag token is the unexpected-token Error, not a panic (shown for Bool
and I8).  In the payload form the tag becomes the single key of the
enum-as-map adapter via EnumMapVisitor::next_key_seed, which supports Str,
Bytes and U32 tag tokens and fails with the unexpected-token Error on any
other stored tag token (shown for Bool). -/
theorem C8_enum_tag (nm : String) (v : String) (bs : List UInt8) (n : Nat)
    (b : Bool) (i : Int) (k : Nat) (r : List Token) (f : Nat) :
    (deserialize_any (f + 1) (Token.enum nm :: Token.str v :: Token.unit :: r)
      = .done (.str v) r) ∧
    (deserialize_any (f + 1)
        (Token.enum nm :: Token.borrowedStr v :: Token.unit :: r)
      = .done (.str v) r) ∧
    (deserialize_any (f + 1) (Token.enum nm :: Token.string v :: Token.unit :: r)
      = .done (.str v) r) ∧
    (deserialize_any (f + 1) (Token.enum nm :: Token.bytes bs :: Token.unit :: r)
      = .done (.bytes bs) r) ∧
    (deserialize_any (f + 1)
        (Token.enum nm :: Token.borrowedBytes bs :: Token.unit :: r)
      = .done (.bytes bs) r) ∧
    (deserialize_any (f + 1) (Token.enum nm :: Token.byteBuf bs :: Token.unit :: r)
      = .done (.bytes bs) r) ∧
    (deserialize_any (f + 1) (Token.enum nm :: Token.u8 n :: Token.unit :: r)
      = .done (.u8 n) r) ∧
    (deserialize_any (f + 1) (Token.enum nm :: Token.u16 n :: Token.unit :: r)
      = .done (.u16 n) r) ∧
    (deserialize_any (f + 1) (Token.enum nm :: Token.u32 n :: Token.unit :: r)
      = .done (.u32 n) r) ∧
    (deserialize_any (f + 1) (Token.enum nm :: Token.u64 n :: Token.unit :: r)
      = .done (.u64 n) r) ∧
    (deserialize_any (f + 1) (Token.enum nm :: Token.bool b :: Token.unit :: r)
      = .fail (.unexpectedToken (.bool b))) ∧
    (deserialize_any (f + 1) (Token.enum nm :: Token.i8 i :: Token.unit :: r)
      = .fail (.unexpectedToken (.i8 i))) ∧
    (deserialize_any (f + 2) (Token.enum nm :: Token.str v :: Token.u8 k :: r)
      = .done (.map [(.str v, .u8 k)]) r) ∧
    (deserialize_any (f + 1) (Token.enum nm :: Token.bool b :: Token.u8 k :: r)
      = .fail (.unexpectedToken (.bool b))) ∧
    (enumMapNextKey (Token.str v) = .ok (.str v)) ∧
    (enumMapNextKey (Token.bytes bs) = .ok (.bytes bs)) ∧
    (enumMapNextKey (Token.u32 n) = .ok (.u32 n)) ∧
    (enumMapNextKey (Token.bool b) = .error (.unexpectedToken (.bool b))) := by
  refine ⟨?_, ?_, ?_, ?_, ?_, ?_, ?_, ?_, ?_, ?_, ?_, ?_, ?_, ?_, ?_, ?_, ?_, ?_⟩ <;>
    simp [deserialize_any, next_token_opt, peek_token_opt, List.dropWhile,
          List.find?, Token.isSkipField, enumUnitTag, enumMapNextKey]

/-- Claim C10 (confirmed).  Named-record decoding: when deserialize_struct
peeks a Struct opener, only the type name is validated against the requested
name (a mismatch is a hard failure), the declared length of the opener is
accepted verbatim, and the map sub-visitor is started with length hint equal
to the number of statically requested fields, whatever length the token
declared; a bare Map opener is accepted the same way with no check at all;
any other upcoming token falls back to deserialize_any. -/
theorem C10_struct_dispatch (f : Nat) (name n2 : String) (fields : List String)
    (m : Nat) (lenTok : Option Nat) (ps : List (Value × Value))
    (r s : List Token) (t : Token) :
    (deserialize_struct f name fields (Token.struct name m :: r) =
      (match deMapElements f (Option.some fields.length) EndToken.struct r with
       | .done ps2 s2 =>
           (match assert_next_token Token.structEnd s2 with
            | .ok s3 => .done (.map ps2) s3
            | .error e => .fail e)
       | .out => .out
       | .fail e => .fail e)) ∧
    (n2 ≠ name → deserialize_struct f name fields (Token.struct n2 m :: r) =
      .fail (.gotWanted (.struct n2 m) (.struct name m))) ∧
    (deserialize_struct f name fields (Token.map lenTok :: r) =
      (match deMapElements f (Option.some fields.length) EndToken.map r with
       | .done ps2 s2 =>
           (match assert_next_token Token.mapEnd s2 with
            | .ok s3 => .done (.map ps2) s3
            | .error e => .fail e)
       | .out => .out
       | .fail e => .fail e)) ∧
    ((Value.tokensEntries ps).length + 2 ≤ f →
      deserialize_struct f name fields
        (Token.struct name m :: (Value.tokensEntries ps ++ Token.structEnd :: r))
      = .done (.map ps) r) ∧
    ((Value.tokensEntries ps).length + 2 ≤ f →
      deserialize_struct f name fields
        (Token.map lenTok :: (Value.tokensEntries ps ++ Token.mapEnd :: r))
      = .done (.map ps) r) ∧
    (peek_token_opt s = Option.some t → structFallback t = true →
      deserialize_struct f name fields s = deserialize_any f s) := by
  refine ⟨?_, ?_, ?_, ?_, ?_, ?_⟩
  · simp [deserialize_struct, peek_token_opt, List.find?, Token.isSkipField,
          assert_next_token, next_token_opt, List.dropWhile]
  · intro hne
    simp [deserialize_struct, peek_token_opt, List.find?, Token.isSkipField,
          assert_next_token, next_token_opt, List.dropWhile, hne]
  · simp [deserialize_struct, peek_token_opt, List.find?, Token.isSkipField,
          assert_next_token, next_token_opt, List.dropWhile]
  · intro hfuel
    have hacc := tokens_accepted_entries ps (Token.structEnd :: r)
    have hel := ser_de_entries ps (Value.tokensEntries ps ++ Token.structEnd :: r)
      EndToken.struct r hacc (Option.some fields.length) f
      (by simp [List.length_append]; omega)
    simp only [EndToken.token] at hel
    simp [deserialize_struct, peek_token_opt, List.find?, Token.isSkipField,
          assert_next_token, next_token_opt, List.dropWhile, hel]
  · intro hfuel
    have hacc := tokens_accepted_entries ps (Token.mapEnd :: r)
    have hel := ser_de_entries ps (Value.tokensEntries ps ++ Token.mapEnd :: r)
      EndToken.map r hacc (Option.some fields.length) f
      (by simp [List.length_append]; omega)
    simp only [EndToken.token] at hel
    simp [deserialize_struct, peek_token_opt, List.find?, Token.isSkipField,
          assert_next_token, next_token_opt, List.dropWhile, hel]
  · intro hp hfb
    unfold deserialize_struct
    rw [hp]
    cases t <;> simp_all [structFallback]

/-- Witness for C10: a Struct opener declaring length 99 while two fields are
requested is accepted, the name is checked, and the fallback fires on a
scalar token. -/
theorem C10_struct_dispatch_witness :
    deserialize_struct 20 "S" ["a", "b"]
      [Token.struct "S" 99, Token.str "a", Token.u8 0, Token.structEnd]
      = .done (.map [(.str "a", .u8 0)]) [] ∧
    deserialize_struct 20 "S" ["a", "b"] [Token.struct "U" 2, Token.structEnd]
      = .fail (.gotWanted (.struct "U" 2) (.struct "S" 2)) :=
  ⟨(C10_struct_dispatch 20 "S" "U" ["a", "b"] 99 Option.none
      [(.str "a", .u8 0)] [] [] Token.unit).2.2.2.1 (by decide),
   (C10_struct_dispatch 20 "S" "U" ["a", "b"] 2 Option.none [] []
      [] Token.unit).2.1 (by decide)⟩

end ClaimsThree

section ClaimsFour

/-- Claim C4 (confirmed).  Variant form equivalence: decoding a tuple variant
of requested length len accepts the closed-form TupleVariant token whose
declared length equals len and fails hard (unexpected-token Error naming the
consumed opener) when it differs; it equally accepts a bare Seq token with
known length equal to len under the same equality rule; for the same payload
tokens both forms produce the same decoded result; and any other upcoming
token falls back to the generic deserialize_any path without consuming. -/
theorem C4_tuple_variant_forms (f len m : Nat) (nm vr : String)
    (vs : List Value) (r s : List Token) (t : Token) :
    (m ≠ len → tuple_variant f len (Token.tupleVariant nm vr m :: r)
      = .fail (.unexpectedToken (.tupleVariant nm vr m))) ∧
    (m ≠ len → tuple_variant f len (Token.seq (Option.some m) :: r)
      = .fail (.unexpectedToken (.seq (Option.some m)))) ∧
    ((Value.tokensElements vs).length + 2 ≤ f →
      tuple_variant f len
        (Token.tupleVariant nm vr len ::
          (Value.tokensElements vs ++ Token.tupleVariantEnd :: r))
      = .done (.seq vs) r) ∧
    ((Value.tokensElements vs).length + 2 ≤ f →
      tuple_variant f len
        (Token.seq (Option.some len) ::
          (Value.tokensElements vs ++ Token.seqEnd :: r))
      = .done (.seq vs) r) ∧
    (peek_token_opt s = Option.some t → tupleVariantFallback t = true →
      tuple_variant f len s = deserialize_any f s) := by
  refine ⟨?_, ?_, ?_, ?_, ?_⟩
  · intro hne
    have hne2 : ¬(len = m) := fun hh => hne hh.symm
    simp [tuple_variant, peek_token_opt, List.find?, Token.isSkipField,
          next_token_opt, List.dropWhile, hne2]
  · intro hne
    have hne2 : ¬(len = m) := fun hh => hne hh.symm
    simp [tuple_variant, peek_token_opt, List.find?, Token.isSkipField,
          next_token_opt, List.dropWhile, hne2]
  · intro hfuel
    have hacc := tokens_accepted_elements vs (Token.tupleVariantEnd :: r)
    have hel := ser_de_elements vs
      (Value.tokensElements vs ++ Token.tupleVariantEnd :: r)
      EndToken.tupleVariant r hacc (Option.some len) f
      (by simp [List.length_append]; omega)
    simp only [EndToken.token] at hel
    simp [tuple_variant, peek_token_opt, List.find?, Token.isSkipField,
          next_token_opt, List.dropWhile, assert_next_token, hel]
  · intro hfuel
    have hacc := tokens_accepted_elements vs (Token.seqEnd :: r)
    have hel := ser_de_elements vs
      (Value.tokensElements vs ++ Token.seqEnd :: r)
      EndToken.seq r hacc (Option.some len) f
      (by simp [List.length_append]; omega)
    simp only [EndToken.token] at hel
    simp [tuple_variant, peek_token_opt, List.find?, Token.isSkipField,
          next_token_opt, List.dropWhile, assert_next_token, hel]
  · intro hp hfb
    unfold tuple_variant
    rw [hp]
    cases t with
    | seq lenTok =>
        cases lenTok with
        | none => rfl
        | some m2 => simp [tupleVariantFallback] at hfb
    | tupleVariant a b c => simp [tupleVariantFallback] at hfb
    | _ => rfl

/-- Witness for C4: the closed TupleVariant form and the bare Seq form with
the same payload produce the same decoded value, and a length mismatch is a
hard failure. -/
theorem C4_tuple_variant_forms_witness :
    tuple_variant 20 2
      [Token.tupleVariant "E" "A" 2, Token.u8 1, Token.u8 2, Token.tupleVariantEnd]
      = .done (.seq [.u8 1, .u8 2]) [] ∧
    tuple_variant 20 2
      [Token.seq (Option.some 2), Token.u8 1, Token.u8 2, Token.seqEnd]
      = .done (.seq [.u8 1, .u8 2]) [] ∧
    tuple_variant 20 2 [Token.tupleVariant "E" "A" 3]
      = .fail (.unexpectedToken (.tupleVariant "E" "A" 3)) :=
  ⟨(C4_tuple_variant_forms 20 2 2 "E" "A" [.u8 1, .u8 2] [] [] Token.unit).2.2.1
      (by decide),
   (C4_tuple_variant_forms 20 2 2 "E" "A" [.u8 1, .u8 2] [] [] Token.unit).2.2.2.1
      (by decide),
   (C4_tuple_variant_forms 20 2 3 "E" "A" [] [] [] Token.unit).1 (by decide)⟩

/-- Claim C5 counterexample.  The claim requires a hard failure when the
declared length of a TupleStruct opener differs from the requested length;
but requesting name T with length 2 against a script whose opener declares
length 3 succeeds: the assert in the source binds the length from the peeked
token itself, so only the name is compared, and the two-element payload
decodes completely. -/
theorem C5_counterexample :
    deserialize_tuple_struct 20 "T" 2
      [Token.tupleStruct "T" 3, Token.u8 1, Token.u8 2, Token.tupleStructEnd]
      = .done (.seq [.u8 1, .u8 2]) [] := by
  decide

/-- Claim C5 (corrected).  Named-tuple decoding: deserialize_tuple_struct
accepts a bare Unit token, a named-unit token with matching name (mismatched
name being a failure), a bare Seq opener, a bare Tuple opener, or a
TupleStruct opener whose name matches the requested name — but the declared
length of the TupleStruct opener is accepted verbatim for every value, only
the type name being validated (a name mismatch is a failure), with the
requested length serving only as the sub-visitor size hint; any other
upcoming token defers to deserialize_any. -/
theorem C5_tuple_struct_dispatch (f len m : Nat) (name n2 : String)
    (lenTok : Option Nat) (vs : List Value) (r s : List Token) (t : Token) :
    (deserialize_tuple_struct f name len (Token.unit :: r) = .done .unit r) ∧
    (deserialize_tuple_struct f name len (Token.unitStruct name :: r)
      = .done .unit r) ∧
    (n2 ≠ name →
      deserialize_tuple_struct f name len (Token.unitStruct n2 :: r)
      = .fail (.gotWanted (.unitStruct n2) (.unitStruct name))) ∧
    ((Value.tokensElements vs).length + 2 ≤ f →
      deserialize_tuple_struct f name len
        (Token.seq lenTok :: (Value.tokensElements vs ++ Token.seqEnd :: r))
      = .done (.seq vs) r) ∧
    ((Value.tokensElements vs).length + 2 ≤ f →
      deserialize_tuple_struct f name len
        (Token.tuple m :: (Value.tokensElements vs ++ Token.tupleEnd :: r))
      = .done (.seq vs) r) ∧
    ((Value.tokensElements vs).length + 2 ≤ f →
      deserialize_tuple_struct f name len
        (Token.tupleStruct name m ::
          (Value.tokensElements vs ++ Token.tupleStructEnd :: r))
      = .done (.seq vs) r) ∧
    (n2 ≠ name →
      deserialize_tuple_struct f name len (Token.tupleStruct n2 m :: r)
      = .fail (.gotWanted (.tupleStruct n2 m) (.tupleStruct name m))) ∧
    (peek_token_opt s = Option.some t → tupleStructFallback t = true →
      deserialize_tuple_struct f name len s = deserialize_any f s) := by
  refine ⟨?_, ?_, ?_, ?_, ?_, ?_, ?_, ?_⟩
  · simp [deserialize_tuple_struct, peek_token_opt, List.find?,
          Token.isSkipField, next_token_opt, List.dropWhile]
  · simp [deserialize_tuple_struct, peek_token_opt, List.find?,
          Token.isSkipField, next_token_opt, List.dropWhile, assert_next_token]
  · intro hne
    simp [deserialize_tuple_struct, peek_token_opt, List.find?,
          Token.isSkipField, next_token_opt, List.dropWhile, assert_next_token,
          hne]
  · intro hfuel
    have hacc := tokens_accepted_elements vs (Token.seqEnd :: r)
    have hel := ser_de_elements vs
      (Value.tokensElements vs ++ Token.seqEnd :: r)
      EndToken.seq r hacc (Option.some len) f
      (by simp [List.length_append]; omega)
    simp only [EndToken.token] at hel
    simp [deserialize_tuple_struct, peek_token_opt, List.find?,
          Token.isSkipField, next_token_opt, List.dropWhile, assert_next_token,
          hel]
  · intro hfuel
    have hacc := tokens_accepted_elements vs (Token.tupleEnd :: r)
    have hel := ser_de_elements vs
      (Value.tokensElements vs ++ Token.tupleEnd :: r)
      EndToken.tuple r hacc (Option.some len) f
      (by simp [List.length_append]; omega)
    simp only [EndToken.token] at hel
    simp [deserialize_tuple_struct, peek_token_opt, List.find?,
          Token.isSkipField, next_token_opt, List.dropWhile, assert_next_token,
          hel]
  · intro hfuel
    have hacc := tokens_accepted_elements vs (Token.tupleStructEnd :: r)
    have hel := ser_de_elements vs
      (Value.tokensElements vs ++ Token.tupleStructEnd :: r)
      EndToken.tupleStruct r hacc (Option.some len) f
      (by simp [List.length_append]; omega)
    simp only [EndToken.token] at hel
    simp [deserialize_tuple_struct, peek_token_opt, List.find?,
          Token.isSkipField, next_token_opt, List.dropWhile, assert_next_token,
          hel]
  · intro hne
    simp [deserialize_tuple_struct, peek_token_opt, List.find?,
          Token.isSkipField, next_token_opt, List.dropWhile, assert_next_token,
          hne]
  · intro hp hfb
    unfold deserialize_tuple_struct
    rw [hp]
    cases t <;> first
      | rfl
      | simp [tupleStructFallback] at hfb

/-- Witness for C5: the verbatim-length acceptance at declared length 99 with
requested length 2, and the name-mismatch failure. -/
theorem C5_tuple_struct_dispatch_witness :
    deserialize_tuple_struct 20 "T" 2
      [Token.tupleStruct "T" 99, Token.u8 1, Token.u8 2, Token.tupleStructEnd]
      = .done (.seq [.u8 1, .u8 2]) [] ∧
    deserialize_tuple_struct 20 "T" 2 [Token.tupleStruct "U" 5]
      = .fail (.gotWanted (.tupleStruct "U" 5) (.tupleStruct "T" 5)) :=
  ⟨(C5_tuple_struct_dispatch 20 2 99 "T" "U" Option.none [.u8 1, .u8 2] []
      [] Token.unit).2.2.2.2.2.1 (by decide),
   (C5_tuple_struct_dispatch 20 2 5 "T" "U" Option.none [] [] []
      Token.unit).2.2.2.2.2.2.1 (by decide)⟩

end ClaimsFour

end SerdeTest
